import Mathlib

/-!
Verification of the Voxelize HTML post-processing pipeline.

This file gives a shallow embedding, over `List Char`, of the four
string-transformation stages of `utils/html.ts`:

* `extractHtmlFromText` — pulls an HTML document out of noisy model output,
* `hideBodyText`        — injects a CSS block hiding UI chrome,
* `zoomCamera`          — rescales `camera.position.set(x, y, z)` calls,
* `injectGameMode`      — splices a fixed controller script into the document,

together with an exact model of the IEEE-754 binary64 arithmetic and the
ECMAScript number-to-string conversion used by `zoomCamera`, and proves the
behavioural properties stated about them.

JavaScript strings are modelled as `List Char`.  The case-insensitive `i`
regex flag and `String.prototype.toLowerCase` are modelled by ASCII case
folding, which agrees with the ECMAScript canonicalisation on every pattern
used by this program (all patterns are ASCII, and no non-ASCII code point
canonicalises to an ASCII letter under the ECMA rules for non-unicode
regular expressions).
-/

set_option maxRecDepth 40000

namespace Voxelize

/-- JavaScript strings, modelled as lists of characters. -/
abbrev Str := List Char

/-- ASCII lower-casing of a single character (used to model the `i` regex
flag and `toLowerCase` on the ASCII patterns this program searches for). -/
def lowerAscii (c : Char) : Char :=
  if 'A' ≤ c ∧ c ≤ 'Z' then Char.ofNat (c.toNat + 32) else c

/-- Case-sensitive character comparison. -/
def chEq (a b : Char) : Bool := a == b

/-- Case-insensitive (ASCII-folded) character comparison. -/
def chEqCI (a b : Char) : Bool := lowerAscii a == lowerAscii b

/-- Prefix test: `startsWithBy eqv pat s` holds when `s` starts with the pattern `pat`, comparing
characters with `eqv`. -/
def startsWithBy (eqv : Char → Char → Bool) : Str → Str → Bool
  | [], _ => true
  | _ :: _, [] => false
  | p :: ps, c :: cs => eqv p c && startsWithBy eqv ps cs

/-- Split `s` at the first occurrence of `pat` (under `eqv`): returns
`some (pre, suf)` with `s = pre ++ suf` and `suf` starting with `pat`,
`pre` shortest possible; `none` when no occurrence exists. -/
def splitFirstBy (eqv : Char → Char → Bool) (pat : Str) : Str → Option (Str × Str)
  | [] => if startsWithBy eqv pat [] then some ([], []) else none
  | c :: cs =>
    if startsWithBy eqv pat (c :: cs) then some ([], c :: cs)
    else (splitFirstBy eqv pat cs).map (fun p => (c :: p.1, p.2))

/-- Split `s` at the last occurrence of `pat` (under `eqv`). -/
def splitLastBy (eqv : Char → Char → Bool) (pat : Str) : Str → Option (Str × Str)
  | [] => if startsWithBy eqv pat [] then some ([], []) else none
  | c :: cs =>
    match splitLastBy eqv pat cs with
    | some p => some (c :: p.1, p.2)
    | none => if startsWithBy eqv pat (c :: cs) then some ([], c :: cs) else none

/-- Model of `String.prototype.includes` (substring test, case-sensitive). -/
def includesSub (pat s : Str) : Bool := (splitFirstBy chEq pat s).isSome

/-- Model of `String.prototype.toLowerCase`, restricted to ASCII folding. -/
def toLowerCaseJS (s : Str) : Str := s.map lowerAscii

/-- The ECMAScript `\s` character class (`WhiteSpace ∪ LineTerminator`),
also the set trimmed by `String.prototype.trim`. -/
def isSpaceJS (c : Char) : Bool :=
  c.toNat == 32 || c.toNat == 9 || c.toNat == 10 || c.toNat == 11 || c.toNat == 12 ||
  c.toNat == 13 || c.toNat == 160 || c.toNat == 5760 ||
  (8192 ≤ c.toNat && c.toNat ≤ 8202) ||
  c.toNat == 8232 || c.toNat == 8233 || c.toNat == 8239 || c.toNat == 8287 ||
  c.toNat == 12288 || c.toNat == 65279

/-- Greedy `\s*`. -/
def skipSpaces (s : Str) : Str := s.dropWhile isSpaceJS

/-- Model of `String.prototype.trim`. -/
def trimJS (s : Str) : Str :=
  ((s.dropWhile isSpaceJS).reverse.dropWhile isSpaceJS).reverse


/-! ## The string constants of `utils/html.ts` -/

/-- The CSS block `cssToInject` of `hideBodyText` (`utils/html.ts`),
transcribed byte-for-byte from the template literal. -/
def cssToInject : Str :=
  ("\n    <style>\n      #info, #loading, #ui, #instructions, .label, .overlay, #description \x7b\n        display: none !important;\n        opacity: 0 !important;\n        pointer-events: none !important;\n        visibility: hidden !important;\n      \x7d\n      body \x7b\n        user-select: none !important;\n      \x7d\n    </style>\n  ").data

/-- The controller/exporter script template `gameScript` of `injectGameMode`
(`utils/html.ts`), transcribed byte-for-byte from the template literal. -/
def gameScript : Str :=
  ("\n    // \x2d\x2d\x2d INJECTED GAME & EXPORT LOGIC \x2d\x2d\x2d\n    (function() \x7b\n        async function startInjectedLogic() \x7b\n            console.log(\x22[Voxelize] Injected logic started. Waiting for Three.js variables...\x22);\n            \n            // Poll for variables that might be defined in the parent module scope\n            let THREE_obj, scene_obj, camera_obj, renderer_obj, controls_obj;\n            \n            const poll = async () => \x7b\n                for (let i = 0; i < 100; i++) \x7b\n                    try \x7b\n                        THREE_obj = typeof THREE !== \x27undefined\x27 ? THREE : null;\n                        scene_obj = typeof scene !== \x27undefined\x27 ? scene : null;\n                        camera_obj = typeof camera !== \x27undefined\x27 ? camera : null;\n                        renderer_obj = typeof renderer !== \x27undefined\x27 ? renderer : null;\n                        controls_obj = typeof controls !== \x27undefined\x27 ? controls : null;\n                        \n                        if (THREE_obj && scene_obj && renderer_obj) return true;\n                    \x7d catch(e) \x7b\x7d\n                    await new Promise(r => setTimeout(r, 100));\n                \x7d\n                return false;\n            \x7d;\n\n            const found = await poll();\n            if (!found) \x7b\n                console.warn(\x22[Voxelize] Could not find THREE or scene variables. Export may not work.\x22);\n                return;\n            \x7d\n\n            console.log(\x22[Voxelize] Three.js variables found. Ready for interactions.\x22);\n\n            // 1. Export Handler\n            window.addEventListener(\x27message\x27, async (event) => \x7b\n                if (event.data === \x27EXPORT_GLB\x27) \x7b\n                    console.log(\x22[Voxelize] Export command received.\x22);\n                    try \x7b\n                        // Attempt to load exporter from the import map or direct unpkg link\n                        let GLTFExporter;\n                        try \x7b\n                            const module = await import(\x27three/addons/exporters/GLTFExporter.js\x27);\n                            GLTFExporter = module.GLTFExporter;\n                        \x7d catch (err) \x7b\n                            console.log(\x22[Voxelize] Import map failed, trying direct unpkg link...\x22);\n                            const module = await import(\x27https://unpkg.com/three@0.160.0/examples/jsm/exporters/GLTFExporter.js\x27);\n                            GLTFExporter = module.GLTFExporter;\n                        \x7d\n\n                        if (!GLTFExporter) throw new Error(\x22GLTFExporter not found in loaded modules\x22);\n\n                        const exporter = new GLTFExporter();\n                        exporter.parse(scene_obj, (gltf) => \x7b\n                            const blob = gltf instanceof ArrayBuffer \n                                ? new Blob([gltf], \x7b type: \x27application/octet-stream\x27 \x7d)\n                                : new Blob([JSON.stringify(gltf)], \x7b type: \x27application/json\x27 \x7d);\n                            \n                            const url = URL.createObjectURL(blob);\n                            const link = document.createElement(\x27a\x27);\n                            link.style.display = \x27none\x27;\n                            link.href = url;\n                            link.download = \x27voxel-scene-\x27 + Date.now() + (gltf instanceof ArrayBuffer ? \x27.glb\x27 : \x27.gltf\x27);\n                            document.body.appendChild(link);\n                            link.click();\n                            document.body.removeChild(link);\n                            URL.revokeObjectURL(url);\n                            console.log(\x22[Voxelize] Export successful.\x22);\n                        \x7d, (error) => \x7b\n                            console.error(\x27[Voxelize] Export error:\x27, error);\n                        \x7d, \x7b binary: true, includeCustomExtensions: true \x7d);\n                    \x7d catch (err) \x7b\n                        console.error(\x22[Voxelize] Failed to export GLB:\x22, err);\n                    \x7d\n                \x7d\n            \x7d);\n\n            // 2. Character Setup\n            const dist = camera_obj.position.distanceTo(new THREE_obj.Vector3(0,0,0));\n            const playerHeight = Math.max(1, dist / 25); \n            const playerRadius = playerHeight * 0.3;\n            const moveSpeed = playerHeight * 15;\n            const jumpForce = playerHeight * 15;\n            const gravity = playerHeight * 40;\n\n            const geometry = new THREE_obj.CylinderGeometry(playerRadius, playerRadius, playerHeight, 16);\n            const material = new THREE_obj.MeshStandardMaterial(\x7b color: 0xff0055, roughness: 0.4 \x7d);\n            const player = new THREE_obj.Mesh(geometry, material);\n            player.position.set(0, playerHeight * 5, 0); \n            scene_obj.add(player);\n            \n            const shadowGeo = new THREE_obj.CircleGeometry(playerRadius * 1.5, 16);\n            const shadowMat = new THREE_obj.MeshBasicMaterial(\x7b color: 0x000000, transparent: true, opacity: 0.3, depthWrite: false \x7d);\n            const shadow = new THREE_obj.Mesh(shadowGeo, shadowMat);\n            shadow.rotation.x = -Math.PI / 2;\n            scene_obj.add(shadow);\n\n            const input = \x7b f: false, b: false, l: false, r: false, space: false \x7d;\n            window.addEventListener(\x27keydown\x27, (e) => \x7b\n                const key = e.code;\n                if (key === \x27KeyW\x27 || key === \x27ArrowUp\x27) input.f = true;\n                if (key === \x27KeyS\x27 || key === \x27ArrowDown\x27) input.b = true;\n                if (key === \x27KeyA\x27 || key === \x27ArrowLeft\x27) input.l = true;\n                if (key === \x27KeyD\x27 || key === \x27ArrowRight\x27) input.r = true;\n                if (key === \x27Space\x27) input.space = true;\n            \x7d);\n            window.addEventListener(\x27keyup\x27, (e) => \x7b\n                const key = e.code;\n                if (key === \x27KeyW\x27 || key === \x27ArrowUp\x27) input.f = false;\n                if (key === \x27KeyS\x27 || key === \x27ArrowDown\x27) input.b = false;\n                if (key === \x27KeyA\x27 || key === \x27ArrowLeft\x27) input.l = false;\n                if (key === \x27KeyD\x27 || key === \x27ArrowRight\x27) input.r = false;\n                if (key === \x27Space\x27) input.space = false;\n            \x7d);\n\n            const velocity = new THREE_obj.Vector3();\n            const raycaster = new THREE_obj.Raycaster();\n            const down = new THREE_obj.Vector3(0, -1, 0);\n            const clock = new THREE_obj.Clock();\n\n            const originalRender = renderer_obj.render.bind(renderer_obj);\n            \n            renderer_obj.render = (s, c) => \x7b\n                const dt = Math.min(clock.getDelta(), 0.1); \n                velocity.y -= gravity * dt;\n\n                const camDir = new THREE_obj.Vector3();\n                camera_obj.getWorldDirection(camDir);\n                camDir.y = 0;\n                camDir.normalize();\n                \n                const camRight = new THREE_obj.Vector3();\n                camRight.crossVectors(camDir, new THREE_obj.Vector3(0, 1, 0)).normalize();\n\n                const moveDir = new THREE_obj.Vector3();\n                if (input.f) moveDir.add(camDir);\n                if (input.b) moveDir.sub(camDir);\n                if (input.l) moveDir.sub(camRight);\n                if (input.r) moveDir.add(camRight);\n\n                if (moveDir.lengthSq() > 0) \x7b\n                    moveDir.normalize();\n                    player.position.add(moveDir.multiplyScalar(moveSpeed * dt));\n                \x7d\n\n                raycaster.set(player.position, down);\n                const intersects = raycaster.intersectObjects(scene_obj.children, true);\n                \n                let groundY = -Infinity;\n                for (let hit of intersects) \x7b\n                    if (hit.object !== player && hit.object !== shadow && !hit.object.userData.ignoreRaycast) \x7b\n                        groundY = hit.point.y;\n                        break; \n                    \x7d\n                \x7d\n\n                const feetPos = player.position.y - playerHeight/2;\n                if (feetPos <= groundY + 0.1) \x7b\n                    if (velocity.y <= 0) \x7b\n                        player.position.y = groundY + playerHeight/2;\n                        velocity.y = 0;\n                        if (input.space) velocity.y = jumpForce;\n                    \x7d\n                \x7d\n                \n                player.position.y += velocity.y * dt;\n\n                if (groundY > -100) \x7b\n                    shadow.position.set(player.position.x, groundY + 0.05, player.position.z);\n                    shadow.visible = true;\n                \x7d else \x7b\n                    shadow.visible = false;\n                \x7d\n\n                if (player.position.y < -100) \x7b\n                    player.position.set(0, playerHeight * 10, 0);\n                    velocity.set(0, 0, 0);\n                \x7d\n\n                if (controls_obj) \x7b\n                    const targetPos = player.position.clone();\n                    controls_obj.target.lerp(targetPos, 0.1);\n                    controls_obj.update();\n                \x7d else \x7b\n                    camera_obj.lookAt(player.position);\n                \x7d\n\n                originalRender(s, c);\n            \x7d;\n        \x7d\n        \n        // Use requestAnimationFrame to ensure the rest of the script has a chance to initialize variables\n        requestAnimationFrame(() => \x7b\n            startInjectedLogic().catch(console.error);\n        \x7d);\n    \x7d)();\n    ").data

/-- Pattern `<!DOCTYPE html>` (leading alternative of the extraction regex). -/
def doctypePat : Str := ("<!DOCTYPE html>").data

/-- Pattern `<html` (second alternative of the extraction regex). -/
def htmlOpenPat : Str := ("<html").data

/-- Pattern `</html>`. -/
def htmlClosePat : Str := ("</html>").data

/-- Pattern `\x60\x60\x60` (a markdown code fence). -/
def fencePat : Str := ("\x60\x60\x60").data

/-- Pattern `html` (the optional language tag of a code fence). -/
def htmlTagPat : Str := ("html").data

/-- Pattern `</head>`. -/
def headClosePat : Str := ("</head>").data

/-- Pattern `</body>`. -/
def bodyClosePat : Str := ("</body>").data

/-- Pattern `</script>`. -/
def scriptClosePat : Str := ("</script>").data

/-- The literal `<script type="module">` opening tag appended by
`injectGameMode` when the document has no `</script>` tag. -/
def scriptOpenModule : Str := ("<script type=\x22module\x22>").data

/-- The literal `camera.position.set(` head of the `zoomCamera` pattern. -/
def setCallPat : Str := ("camera.position.set(").data

/-! ## Stage 1: `extractHtmlFromText` -/

/-- One attempt of the regex `/(<!DOCTYPE html>|<html)[\s\S]*?<\/html>/i` at a
fixed start position: if a marker matches here and a `</html>` occurs at or
after its end, the match (original casing preserved) is returned. -/
def tryHtmlAt (t : Str) : Option Str :=
  if startsWithBy chEqCI doctypePat t then
    match splitFirstBy chEqCI htmlClosePat (t.drop 15) with
    | some (g, suf) => some (t.take 15 ++ g ++ suf.take 7)
    | none => none
  else if startsWithBy chEqCI htmlOpenPat t then
    match splitFirstBy chEqCI htmlClosePat (t.drop 5) with
    | some (g, suf) => some (t.take 5 ++ g ++ suf.take 7)
    | none => none
  else none

/-- Leftmost match of `/(<!DOCTYPE html>|<html)[\s\S]*?<\/html>/i`: the regex
engine tries each start position from the left and at each position takes the
first (non-greedy) closing `</html>`. -/
def findHtmlMatch : Str → Option Str
  | [] => none
  | c :: cs =>
    match tryHtmlAt (c :: cs) with
    | some m => some m
    | none => findHtmlMatch cs

/-- The skipping part `(?:html)?\s*` of the fence regex, applied after an
opening fence: greedily consume an optional `html` tag, then whitespace. -/
def fenceSkip (r : Str) : Str :=
  skipSpaces (if startsWithBy chEq htmlTagPat r then r.drop 4 else r)

/-- One attempt of the regex `/\x60\x60\x60(?:html)?\s*([\s\S]*?)\x60\x60\x60/` at a fixed
start position, returning the first capture group. -/
def tryFenceAt (t : Str) : Option Str :=
  if startsWithBy chEq fencePat t then
    (splitFirstBy chEq fencePat (fenceSkip (t.drop 3))).map Prod.fst
  else none

/-- Leftmost match of the fence regex. -/
def findFence : Str → Option Str
  | [] => none
  | c :: cs =>
    match tryFenceAt (c :: cs) with
    | some m => some m
    | none => findFence cs

/-- Stage 1, `extractHtmlFromText` (`utils/html.ts` lines 10-26): empty input yields
`""`; otherwise attempt the HTML-document regex, then the code-fence regex
(trimming the capture), then fall back to the trimmed input. -/
def extractHtmlFromText (text : Str) : Str :=
  if text.isEmpty then []
  else
    match findHtmlMatch text with
    | some m => m
    | none =>
      match findFence text with
      | some interior => trimJS interior
      | none => trimJS text

/-! ## Stage 2: `hideBodyText` -/

/-- Model of `String.prototype.replace` with a first-occurrence (case-insensitive)
pattern and a literal replacement: JavaScript returns the input unchanged
when there is no match. -/
def replaceFirstCI (pat repl s : Str) : Str :=
  match splitFirstBy chEqCI pat s with
  | some (pre, suf) => pre ++ repl ++ suf.drop pat.length
  | none => s

/-- Stage 2, `hideBodyText` (`utils/html.ts` lines 31-53): insert `cssToInject`
immediately before the first case-insensitive `</head>`, else before the
first case-insensitive `</body>`, else append it at the end. -/
def hideBodyText (html : Str) : Str :=
  if includesSub headClosePat (toLowerCaseJS html) then
    replaceFirstCI headClosePat (cssToInject ++ headClosePat) html
  else if includesSub bodyClosePat (toLowerCaseJS html) then
    replaceFirstCI bodyClosePat (cssToInject ++ bodyClosePat) html
  else html ++ cssToInject

/-! ## Stage 4: `injectGameMode` -/

/-- Stage 4, `injectGameMode` (`utils/html.ts` lines 72-276): splice the controller
script just before the last case-insensitive `</script>` tag (the regex
`/<\/script>(?![\s\S]*<\/script>)/i` matches exactly the occurrence with no
later occurrence), or append a fresh module script element if none exists. -/
def injectGameMode (html : Str) : Str :=
  match splitLastBy chEqCI scriptClosePat html with
  | none => html ++ scriptOpenModule ++ gameScript ++ scriptClosePat
  | some (pre, suf) =>
    pre ++ ('\n' :: gameScript) ++ ('\n' :: scriptClosePat) ++ suf.drop scriptClosePat.length

/-! ## IEEE-754 binary64 model

`zoomCamera` multiplies `parseFloat` results by the zoom factor and renders
them with JavaScript number-to-string conversion.  The model below is exact
IEEE-754 binary64 arithmetic (round to nearest, ties to even) together with
the ECMA-262 `Number::toString` shortest-round-trip decimal conversion. -/

/-- Binary64 values, excluding NaN payloads and the sign of zero (neither is
observable through the number-to-string conversion this program applies to
its arithmetic results).  `finite m e` denotes `m * 2^e`, kept canonical by
`mkF64`: `m = 0`, or `2^52 ≤ |m| < 2^53` with `-1074 ≤ e ≤ 971`, or
(subnormal) `0 < |m| < 2^52` with `e = -1074`. -/
inductive F64 where
  | finite (m : Int) (e : Int)
  | inf (neg : Bool)
  | nan
deriving DecidableEq

/-- Round `a / b` (with `b > 0`) to the nearest integer, ties to even. -/
def rndNat (a b : Nat) : Nat :=
  let q := a / b
  let r := a % b
  if 2 * r < b then q
  else if b < 2 * r then q + 1
  else if q % 2 = 0 then q else q + 1

/-- Round `(n / d) * 2^t` to the nearest integer, ties to even. -/
def rndScaled2 (n d : Nat) (t : Int) : Nat :=
  if 0 ≤ t then rndNat (n * 2 ^ t.toNat) d else rndNat n (d * 2 ^ (-t).toNat)

/-- Fuelled floor logarithm (kernel-reducible, unlike well-founded
recursion). -/
def natLogGo (b : Nat) : Nat → Nat → Nat
  | 0, _ => 0
  | fuel + 1, n => if 2 ≤ b && b ≤ n then natLogGo b fuel (n / b) + 1 else 0

/-- Floor base-2 logarithm. -/
def natLog2 (n : Nat) : Nat := natLogGo 2 n n

/-- Floor base-10 logarithm. -/
def natLog10 (n : Nat) : Nat := natLogGo 10 n n

/-- Normalise a positive rational `n / d` to `(m, e)` with `2^52 ≤ m < 2^53`
and `m * 2^e` the correctly rounded (ties to even) binary64 significand form
of `n / d`, before exponent clamping. -/
def normPos (n d : Nat) : Nat × Int :=
  let L : Int := (natLog2 n : Int) - (natLog2 d : Int)
  let t0 : Int := 52 - L
  let m0 := rndScaled2 n d t0
  let mt :=
    if m0 < 2 ^ 52 then (rndScaled2 n d (t0 + 1), t0 + 1)
    else if 2 ^ 53 ≤ m0 then (rndScaled2 n d (t0 - 1), t0 - 1)
    else (m0, t0)
  if mt.1 = 2 ^ 53 then (2 ^ 52, -mt.2 + 1) else (mt.1, -mt.2)

/-- Round the rational `± n / d` to the nearest binary64 (ties to even),
with subnormal underflow and overflow to infinity. -/
def mkF64 (neg : Bool) (n d : Nat) : F64 :=
  if n = 0 then .finite 0 0
  else
    let me := normPos n d
    if me.2 < -1074 then
      let sub := rndScaled2 n d 1074
      if sub = 0 then .finite 0 0
      else .finite (if neg then -(sub : Int) else (sub : Int)) (-1074)
    else if 971 < me.2 then .inf neg
    else .finite (if neg then -(me.1 : Int) else (me.1 : Int)) me.2

/-- IEEE-754 binary64 multiplication. -/
def mulF64 : F64 → F64 → F64
  | .nan, _ => .nan
  | _, .nan => .nan
  | .inf a, .inf b => .inf (a != b)
  | .inf a, .finite m _ => if m = 0 then .nan else .inf (a != decide (m < 0))
  | .finite m _, .inf b => if m = 0 then .nan else .inf (b != decide (m < 0))
  | .finite m1 e1, .finite m2 e2 =>
    if m1 = 0 || m2 = 0 then .finite 0 0
    else
      let p := m1 * m2
      let E := e1 + e2
      if 0 ≤ E then mkF64 (decide (p < 0)) (p.natAbs * 2 ^ E.toNat) 1
      else mkF64 (decide (p < 0)) p.natAbs (2 ^ (-E).toNat)

/-- ASCII digit test (the regex `\d`). -/
def isDigitCh (c : Char) : Bool := 48 ≤ c.toNat && c.toNat ≤ 57

/-- Numeric value of a string of ASCII digits. -/
def digitsToNat (s : Str) : Nat := s.foldl (fun a c => a * 10 + (c.toNat - 48)) 0

/-- Model of `parseFloat` on the decimal literals captured by the
`zoomCamera` regex (optional minus sign, digits, at most one dot, final
character a digit): the exact decimal value, correctly rounded to
binary64. -/
def parseFloatLit (lit : Str) : F64 :=
  let sp : Bool × Str :=
    match lit with
    | '-' :: r => (true, r)
    | _ => (false, lit)
  match splitFirstBy chEq (".").data sp.2 with
  | some (ip, dotfp) =>
    let fp := dotfp.drop 1
    mkF64 sp.1 (digitsToNat (ip ++ fp)) (10 ^ fp.length)
  | none => mkF64 sp.1 (digitsToNat sp.2) 1

/-! ### ECMA-262 Number::toString -/

/-- Decimal exponent of the positive rational `n / d`: the `p` with
`10^p ≤ n/d < 10^(p+1)`. -/
def decExpPos (n d : Nat) : Int :=
  if d ≤ n then (natLog10 (n / d) : Int)
  else
    let L := natLog10 d - natLog10 n
    let base := max 1 (L - 1)
    if d ≤ n * 10 ^ base then -(base : Int)
    else if d ≤ n * 10 ^ (base + 1) then -((base : Int) + 1)
    else -((base : Int) + 2)

/-- Round `(n / d) * 10^a` to the nearest integer, ties to even. -/
def rndScaled10 (n d : Nat) (a : Int) : Nat :=
  if 0 ≤ a then rndNat (n * 10 ^ a.toNat) d else rndNat n (d * 10 ^ (-a).toNat)

/-- Absolute value `m * 2^e` as a fraction `(numerator, denominator)`. -/
def f64AbsFrac (m : Nat) (e : Int) : Nat × Nat :=
  if 0 ≤ e then (m * 2 ^ e.toNat, 1) else (m, 2 ^ (-e).toNat)

/-- Does the decimal `s * 10^q` round (to nearest binary64) back to the
positive finite value `m * 2^e`? -/
def roundTrips (s : Nat) (q : Int) (m : Nat) (e : Int) : Bool :=
  decide ((if 0 ≤ q then mkF64 false (s * 10 ^ q.toNat) 1
           else mkF64 false s (10 ^ (-q).toNat)) = F64.finite (m : Int) e)

/-- Decimal candidates with `k` significant digits for the shortest
round-trip search: the correctly rounded `k`-digit decimals at the two
plausible decimal exponents, with their immediate neighbours. -/
def candidatesAt (n d : Nat) (p : Int) (k : Nat) : List (Nat × Int) :=
  let mk : Int → List (Nat × Int) := fun pe =>
    let s0 := rndScaled10 n d ((k : Int) - 1 - pe)
    [(s0 - 1, pe), (s0, pe), (s0 + 1, pe)]
  mk p ++ mk (p + 1)

/-- Validity of a candidate `(s, pe)`: `s` has exactly `k` digits and
`s * 10^(pe+1-k)` rounds back to the value. -/
def validCand (m : Nat) (e : Int) (k : Nat) (c : Nat × Int) : Bool :=
  10 ^ (k - 1) ≤ c.1 && c.1 < 10 ^ k && roundTrips c.1 (c.2 + 1 - (k : Int)) m e

/-- Comparison of the distances of two decimal candidates from `n / d`,
by exact integer cross-multiplication: each candidate `(s, pe)` with `k`
digits denotes `s * 10^(pe+1-k)`, and the common scaling by
`d * 10^Q` makes both distances integers. -/
def candErrCmp (n d : Nat) (k : Nat) (c b : Nat × Int) : Ordering :=
  let q1 := c.2 + 1 - (k : Int)
  let q2 := b.2 + 1 - (k : Int)
  let q : Int := max 0 (max (-q1) (-q2))
  let a1 := ((c.1 : Int) * d * 10 ^ (q1 + q).toNat - n * 10 ^ q.toNat).natAbs
  let a2 := ((b.1 : Int) * d * 10 ^ (q2 + q).toNat - n * 10 ^ q.toNat).natAbs
  compare a1 a2

/-- Choice among valid candidates: closest to the value; on a tie, the even
significand (ECMA-262 Number::toString step 5 side conditions). -/
def pickCand (n d m : Nat) (e : Int) (k : Nat) : Option (Nat × Int) :=
  ((candidatesAt n d (decExpPos n d) k).filter (validCand m e k)).foldl
    (fun best c =>
      match best with
      | none => some c
      | some b =>
        match candErrCmp n d k c b with
        | .lt => some c
        | .eq => if c.1 % 2 = 0 && ¬ b.1 % 2 = 0 then some c else some b
        | .gt => some b) none

/-- Search for the smallest viable digit count `k`, counting up from 1. -/
def searchDigitsGo (n d m : Nat) (e : Int) : Nat → Nat → Option (Nat × Int)
  | 0, _ => none
  | fuel + 1, k =>
    match pickCand n d m e k with
    | some c => some c
    | none => searchDigitsGo n d m e fuel (k + 1)

/-- ECMA-262 Number::toString digit search: smallest significant digit count
(17 always suffices for binary64, so the fallback branch is unreachable). -/
def searchDigits (n d m : Nat) (e : Int) : Nat × Int :=
  match searchDigitsGo n d m e 17 1 with
  | some c => c
  | none => (rndScaled10 n d (17 - 1 - decExpPos n d), decExpPos n d)

/-- Decimal digit characters of `s`. -/
def natDigits (s : Nat) : Str := Nat.toDigits 10 s

/-- A run of `n` copies of a character. -/
def repeatChar (c : Char) : Nat → Str
  | 0 => []
  | n + 1 => c :: repeatChar c n

/-- Layout step of ECMA-262 Number::toString(x, 10) for positive finite
values, given the significant digits `ds` and the position `n`
(value = 0.ds × 10^n). -/
def layoutDecimal (ds : Str) (n : Int) : Str :=
  let k : Int := (ds.length : Int)
  if k ≤ n && n ≤ 21 then ds ++ repeatChar '0' (n - k).toNat
  else if 0 < n && n < k then ds.take n.toNat ++ '.' :: ds.drop n.toNat
  else if -6 < n && n ≤ 0 then '0' :: '.' :: (repeatChar '0' (-n).toNat ++ ds)
  else
    let expPart := (if 0 ≤ n - 1 then ['+'] else ['-']) ++ natDigits (n - 1).natAbs
    match ds with
    | [dd] => dd :: 'e' :: expPart
    | _ => ds.take 1 ++ '.' :: (ds.drop 1 ++ 'e' :: expPart)

/-- ECMA-262 ToString on a binary64 number (the conversion performed by the
template literal in `zoomCamera`). -/
def jsNumberToString : F64 → Str
  | .nan => ("NaN").data
  | .inf b => if b then ("-Infinity").data else ("Infinity").data
  | .finite m e =>
    if m = 0 then ("0").data
    else
      let a := m.natAbs
      let nd := f64AbsFrac a e
      let c := searchDigits nd.1 nd.2 a e
      (if m < 0 then ['-'] else []) ++ layoutDecimal (natDigits c.1) (c.2 + 1)

/-! ## Stage 3: `zoomCamera` -/

/-- The default zoom factor `0.8` of `zoomCamera`. -/
def zoom08 : F64 := mkF64 false 8 10

/-- Greedy run of ASCII digits (the regex `\d*` and `\d+`). -/
def takeDigits : Str → Str × Str
  | [] => ([], [])
  | c :: cs =>
    if isDigitCh c then
      let p := takeDigits cs
      (c :: p.1, p.2)
    else ([], c :: cs)

/-- The optional sign `-?` at the head of a captured literal. -/
def parseSign (s : Str) : Str × Str :=
  match s with
  | c :: r => if c = '-' then (['-'], r) else ([], c :: r)
  | [] => ([], [])

/-- Continuation of the literal match after the leading digit run `ds`:
an optional `.` followed by a mandatory digit run, with the backtracking the
regex engine performs (a dot not followed by a digit is given back). -/
def parseLitTail (sign ds : Str) : Str → Option (Str × Str)
  | c :: r2 =>
    if c = '.' then
      if (takeDigits r2).1.isEmpty then
        if ds.isEmpty then none else some (sign ++ ds, c :: r2)
      else some (sign ++ ds ++ '.' :: (takeDigits r2).1, (takeDigits r2).2)
    else if ds.isEmpty then none else some (sign ++ ds, c :: r2)
  | [] => if ds.isEmpty then none else some (sign ++ ds, [])

/-- Match of the capture `(-?\d*\.?\d+)` at the head of `s`, returning the
captured text and the rest. -/
def parseLit (s : Str) : Option (Str × Str) :=
  parseLitTail (parseSign s).1 (takeDigits (parseSign s).2).1 (takeDigits (parseSign s).2).2

/-- The separator fragments `\s*,` and `\s*\)` of the call pattern. -/
def expectChar (ch : Char) (s : Str) : Option Str :=
  match skipSpaces s with
  | c :: r => if c = ch then some r else none
  | [] => none

/-- Match of `\s*(lit)\s*,\s*(lit)\s*,\s*(lit)\s*\)` directly after the
literal `camera.position.set(`, returning the three captures and the rest
of the string after the closing parenthesis. -/
def matchSetArgs (s : Str) : Option (Str × Str × Str × Str) :=
  (parseLit (skipSpaces s)).bind fun p1 =>
    (expectChar ',' p1.2).bind fun s2 =>
      (parseLit (skipSpaces s2)).bind fun p2 =>
        (expectChar ',' p2.2).bind fun s4 =>
          (parseLit (skipSpaces s4)).bind fun p3 =>
            (expectChar ')' p3.2).map fun s6 => (p1.1, p2.1, p3.1, s6)

/-- The replacement string built by the `zoomCamera` callback:
`camera.position.set(${newX}, ${newY}, ${newZ})` with each component the
parsed float times the factor, rendered by ECMA-262 ToString. -/
def setReplacement (f : F64) (x y z : Str) : Str :=
  setCallPat ++ jsNumberToString (mulF64 (parseFloatLit x) f) ++ (", ").data
    ++ jsNumberToString (mulF64 (parseFloatLit y) f) ++ (", ").data
    ++ jsNumberToString (mulF64 (parseFloatLit z) f) ++ [')']

/-- Global regex replace of
`/camera\.position\.set\(\s*(-?\d*\.?\d+)\s*,\s*(-?\d*\.?\d+)\s*,\s*(-?\d*\.?\d+)\s*\)/g`:
scan left to right; at a match, emit the replacement and continue after the
match; otherwise copy one character.  The fuel argument exceeds the string
length at every call site, so the `none` (fuel exhausted) branch is
unreachable. -/
def zoomGo (f : F64) : Nat → Str → Option Str
  | 0, _ => none
  | _ + 1, [] => some []
  | fuel + 1, c :: cs =>
    if startsWithBy chEq setCallPat (c :: cs) then
      match matchSetArgs ((c :: cs).drop 20) with
      | some (x, y, z, rest) => (zoomGo f fuel rest).map (fun t => setReplacement f x y z ++ t)
      | none => (zoomGo f fuel cs).map (c :: ·)
    else (zoomGo f fuel cs).map (c :: ·)

/-- Stage 3, `zoomCamera` (`utils/html.ts` lines 58-66); the source default
for the factor is `0.8` (`zoom08`). -/
def zoomCamera (html : Str) (zoomFactor : F64) : Str :=
  (zoomGo zoomFactor (html.length + 1) html).getD html

/-- The full pipeline composition used by the application
(`App.tsx`: `injectGameMode(zoomCamera(hideBodyText(extractHtmlFromText(raw))))`). -/
def pipeline (raw : Str) (f : F64) : Str :=
  injectGameMode (zoomCamera (hideBodyText (extractHtmlFromText raw)) f)

/-- Option-valued pipeline in which the only partial component (the fuelled
`zoomGo` scan) is surfaced instead of defaulted. -/
def pipelineCore (raw : Str) (f : F64) : Option Str :=
  (zoomGo f ((hideBodyText (extractHtmlFromText raw)).length + 1)
      (hideBodyText (extractHtmlFromText raw))).map injectGameMode

/-! ## Generic lemmas about the scanners -/

/-- Occurrence test: the pattern matches (under `eqv`) at position `i` of
`s`. -/
def occAt (eqv : Char → Char → Bool) (pat s : Str) (i : Nat) : Bool :=
  startsWithBy eqv pat (s.drop i)

theorem occAt_zero {eqv : Char → Char → Bool} {pat s : Str} :
    occAt eqv pat s 0 = startsWithBy eqv pat s := by
  simp [occAt]

theorem occAt_cons_succ {eqv : Char → Char → Bool} {pat : Str} {c : Char} {cs : Str} {i : Nat} :
    occAt eqv pat (c :: cs) (i + 1) = occAt eqv pat cs i := by
  simp [occAt, List.drop_succ_cons]

theorem startsWithBy_length {eqv : Char → Char → Bool} :
    ∀ {pat s : Str}, startsWithBy eqv pat s = true → pat.length ≤ s.length
  | [], _, _ => Nat.zero_le _
  | _ :: _, [], h => by simp [startsWithBy] at h
  | p :: ps, c :: cs, h => by
    simp only [startsWithBy, Bool.and_eq_true] at h
    simpa [List.length_cons] using Nat.succ_le_succ (startsWithBy_length h.2)

theorem startsWithBy_append {eqv : Char → Char → Bool} :
    ∀ {pat s : Str}, startsWithBy eqv pat s = true → ∀ t, startsWithBy eqv pat (s ++ t) = true
  | [], _, _, _ => rfl
  | _ :: _, [], h, _ => by simp [startsWithBy] at h
  | p :: ps, c :: cs, h, t => by
    simp only [startsWithBy, Bool.and_eq_true] at h
    rw [List.cons_append]
    simp only [startsWithBy, h.1, Bool.true_and]
    exact startsWithBy_append h.2 t

theorem startsWithBy_take {eqv : Char → Char → Bool} :
    ∀ (pat s : Str), startsWithBy eqv pat (s.take pat.length) = startsWithBy eqv pat s
  | [], _ => rfl
  | _ :: _, [] => rfl
  | p :: ps, c :: cs => by
    simp only [List.length_cons, List.take_succ_cons, startsWithBy]
    rw [startsWithBy_take ps cs]

theorem startsWithBy_append_left {eqv : Char → Char → Bool} :
    ∀ {pat l : Str}, pat.length ≤ l.length → ∀ {ext : Str},
      startsWithBy eqv pat (l ++ ext) = startsWithBy eqv pat l
  | [], _, _, _ => rfl
  | _ :: _, [], h, _ => by simp at h
  | p :: ps, c :: cs, h, ext => by
    rw [List.cons_append]
    show (eqv p c && startsWithBy eqv ps (cs ++ ext)) = (eqv p c && startsWithBy eqv ps cs)
    rw [startsWithBy_append_left (Nat.le_of_succ_le_succ (by simpa using h))]

theorem startsWithBy_append_split {eqv : Char → Char → Bool} :
    ∀ {pat x y : Str}, startsWithBy eqv pat (x ++ y) = true → x.length ≤ pat.length →
      startsWithBy eqv (pat.drop x.length) y = true
  | pat, [], _, h, _ => h
  | [], _ :: _, _, _, hx => by simp at hx
  | p :: ps, c :: cs, y, h, hx => by
    rw [List.cons_append] at h
    show startsWithBy eqv ((p :: ps).drop (cs.length + 1)) y = true
    have h2 : startsWithBy eqv ps (cs ++ y) = true := by
      revert h
      show (eqv p c && startsWithBy eqv ps (cs ++ y)) = true → _
      intro h
      exact (Bool.and_eq_true .. ▸ h).2
    simpa [List.drop_succ_cons] using
      startsWithBy_append_split h2 (Nat.le_of_succ_le_succ (by simpa using hx))

/-- Characterisation of a failed `splitFirstBy`: no occurrence anywhere. -/
theorem splitFirstBy_none_iff {eqv : Char → Char → Bool} {pat : Str} :
    ∀ {s : Str}, splitFirstBy eqv pat s = none ↔ ∀ i, occAt eqv pat s i = false
  | [] => by
    constructor
    · intro h i
      by_cases hw : startsWithBy eqv pat [] = true
      · simp [splitFirstBy, hw] at h
      · rw [Bool.not_eq_true] at hw
        simp [occAt, List.drop_nil, hw]
    · intro h
      have h0 := h 0
      simp only [occAt, List.drop_nil] at h0
      simp [splitFirstBy, h0]
  | c :: cs => by
    constructor
    · intro h i
      by_cases hw : startsWithBy eqv pat (c :: cs) = true
      · simp [splitFirstBy, hw] at h
      · rw [Bool.not_eq_true] at hw
        cases i with
        | zero => simpa [occAt] using hw
        | succ j =>
          rw [occAt_cons_succ]
          simp only [splitFirstBy, hw, Bool.false_eq_true, if_false] at h
          have hn : splitFirstBy eqv pat cs = none := by
            cases hcs : splitFirstBy eqv pat cs with
            | none => rfl
            | some p => rw [hcs] at h; simp at h
          exact splitFirstBy_none_iff.mp hn j
    · intro h
      have h0 : startsWithBy eqv pat (c :: cs) = false := by simpa [occAt] using h 0
      simp only [splitFirstBy, h0, Bool.false_eq_true, if_false]
      rw [splitFirstBy_none_iff.mpr fun i => by
        have := h (i + 1)
        rwa [occAt_cons_succ] at this]
      rfl

/-- Soundness of `splitFirstBy`: a successful split decomposes the string at
the leftmost occurrence of the pattern. -/
theorem splitFirstBy_sound {eqv : Char → Char → Bool} {pat : Str} :
    ∀ {s a b : Str}, splitFirstBy eqv pat s = some (a, b) →
      s = a ++ b ∧ startsWithBy eqv pat b = true ∧ ∀ i < a.length, occAt eqv pat s i = false
  | [], a, b, h => by
    by_cases hw : startsWithBy eqv pat [] = true
    · simp only [splitFirstBy, hw, if_true, Option.some_inj, Prod.mk.injEq] at h
      obtain ⟨rfl, rfl⟩ := h
      exact ⟨rfl, hw, by simp⟩
    · simp [splitFirstBy, hw] at h
  | c :: cs, a, b, h => by
    by_cases hw : startsWithBy eqv pat (c :: cs) = true
    · simp only [splitFirstBy, hw, if_true, Option.some_inj, Prod.mk.injEq] at h
      obtain ⟨rfl, rfl⟩ := h
      exact ⟨rfl, hw, by simp⟩
    · rw [Bool.not_eq_true] at hw
      simp only [splitFirstBy, hw, Bool.false_eq_true, if_false, Option.map_eq_some'] at h
      obtain ⟨⟨a', b'⟩, hsp, hab⟩ := h
      simp only [Prod.mk.injEq] at hab
      obtain ⟨ha, hb⟩ := hab
      subst ha
      subst hb
      obtain ⟨hdec, hsw, hfirst⟩ := splitFirstBy_sound hsp
      refine ⟨by rw [List.cons_append, ← hdec], hsw, ?_⟩
      intro i hi
      cases i with
      | zero => simpa [occAt] using hw
      | succ j =>
        rw [occAt_cons_succ]
        exact hfirst j (Nat.lt_of_succ_lt_succ hi)

/-- Completeness of `splitFirstBy`: the leftmost-occurrence decomposition is
what `splitFirstBy` returns. -/
theorem splitFirstBy_complete {eqv : Char → Char → Bool} {pat : Str} :
    ∀ {a b : Str}, startsWithBy eqv pat b = true →
      (∀ i < a.length, occAt eqv pat (a ++ b) i = false) →
      splitFirstBy eqv pat (a ++ b) = some (a, b)
  | [], b, hsw, _ => by
    cases b with
    | nil => simp [splitFirstBy, hsw]
    | cons d ds => simp [splitFirstBy, hsw]
  | c :: cs, b, hsw, hfirst => by
    have h0 : startsWithBy eqv pat (c :: (cs ++ b)) = false := by
      have := hfirst 0 (Nat.succ_pos _)
      rwa [occAt_zero, List.cons_append] at this
    rw [List.cons_append]
    simp only [splitFirstBy, h0, Bool.false_eq_true, if_false]
    rw [splitFirstBy_complete hsw (fun i hi => by
      have := hfirst (i + 1) (Nat.succ_lt_succ hi)
      rwa [List.cons_append, occAt_cons_succ] at this)]
    rfl

/-- Characterisation of a failed `splitLastBy`: no occurrence anywhere. -/
theorem splitLastBy_none_iff {eqv : Char → Char → Bool} {pat : Str} :
    ∀ {s : Str}, splitLastBy eqv pat s = none ↔ ∀ i, occAt eqv pat s i = false
  | [] => by
    constructor
    · intro h i
      by_cases hw : startsWithBy eqv pat [] = true
      · simp [splitLastBy, hw] at h
      · rw [Bool.not_eq_true] at hw
        simp [occAt, List.drop_nil, hw]
    · intro h
      have h0 := h 0
      simp only [occAt, List.drop_nil] at h0
      simp [splitLastBy, h0]
  | c :: cs => by
    constructor
    · intro h i
      rcases hrec : splitLastBy eqv pat cs with _ | p
      · rw [splitLastBy, hrec] at h
        by_cases hw : startsWithBy eqv pat (c :: cs) = true
        · simp [hw] at h
        · rw [Bool.not_eq_true] at hw
          cases i with
          | zero => simpa [occAt] using hw
          | succ j =>
            rw [occAt_cons_succ]
            exact splitLastBy_none_iff.mp hrec j
      · rw [splitLastBy, hrec] at h
        simp at h
    · intro h
      have hrec : splitLastBy eqv pat cs = none :=
        splitLastBy_none_iff.mpr fun i => by
          have := h (i + 1)
          rwa [occAt_cons_succ] at this
      have h0 : startsWithBy eqv pat (c :: cs) = false := by simpa [occAt] using h 0
      rw [splitLastBy, hrec]
      simp [h0]

/-- Soundness of `splitLastBy` (for a non-empty pattern): a successful split
decomposes the string at the last occurrence of the pattern. -/
theorem splitLastBy_sound {eqv : Char → Char → Bool} {p0 : Char} {ps0 : Str} :
    ∀ {s a b : Str}, splitLastBy eqv (p0 :: ps0) s = some (a, b) →
      s = a ++ b ∧ startsWithBy eqv (p0 :: ps0) b = true ∧
        ∀ i, a.length < i → occAt eqv (p0 :: ps0) s i = false
  | [], a, b, h => by
    simp [splitLastBy, startsWithBy] at h
  | c :: cs, a, b, h => by
    rcases hrec : splitLastBy eqv (p0 :: ps0) cs with _ | ⟨a', b'⟩
    · rw [splitLastBy, hrec] at h
      by_cases hw : startsWithBy eqv (p0 :: ps0) (c :: cs) = true
      · simp only [hw, if_true, Option.some_inj, Prod.mk.injEq] at h
        obtain ⟨rfl, rfl⟩ := h
        refine ⟨rfl, hw, fun i hi => ?_⟩
        cases i with
        | zero => simp at hi
        | succ j =>
          rw [occAt_cons_succ]
          exact splitLastBy_none_iff.mp hrec j
      · simp [hw] at h
    · rw [splitLastBy, hrec] at h
      simp only [Option.some_inj, Prod.mk.injEq] at h
      obtain ⟨ha, hb⟩ := h
      subst ha
      subst hb
      obtain ⟨hdec, hsw, hlast⟩ := splitLastBy_sound hrec
      refine ⟨by rw [List.cons_append, ← hdec], hsw, fun i hi => ?_⟩
      cases i with
      | zero => simp [List.length_cons] at hi
      | succ j =>
        rw [occAt_cons_succ]
        exact hlast j (Nat.lt_of_succ_lt_succ hi)

/-- Completeness of `splitLastBy`: the last-occurrence decomposition is what
`splitLastBy` returns. -/
theorem splitLastBy_complete {eqv : Char → Char → Bool} {pat : Str} :
    ∀ {a b : Str}, startsWithBy eqv pat b = true →
      (∀ i, a.length < i → occAt eqv pat (a ++ b) i = false) →
      splitLastBy eqv pat (a ++ b) = some (a, b)
  | [], b, hsw, hlast => by
    cases b with
    | nil => simp [splitLastBy, hsw]
    | cons d ds =>
      have hrec : splitLastBy eqv pat ds = none := by
        refine splitLastBy_none_iff.mpr fun i => ?_
        have := hlast (i + 1) (Nat.succ_pos _)
        rwa [List.nil_append, occAt_cons_succ] at this
      rw [List.nil_append, splitLastBy, hrec]
      simp [hsw]
  | c :: cs, b, hsw, hlast => by
    have hrec : splitLastBy eqv pat (cs ++ b) = some (cs, b) :=
      splitLastBy_complete hsw fun i hi => by
        have := hlast (i + 1) (Nat.succ_lt_succ hi)
        rwa [List.cons_append, occAt_cons_succ] at this
    rw [List.cons_append, splitLastBy, hrec]

/-! ### Transport of occurrences along appends -/

theorem occAt_append_add {eqv : Char → Char → Bool} {pat : Str} (a b : Str) (j : Nat) :
    occAt eqv pat (a ++ b) (a.length + j) = occAt eqv pat b j := by
  have hd : ∀ a' : Str, (a' ++ b).drop (a'.length + j) = b.drop j := by
    intro a'
    induction a' with
    | nil => simp
    | cons x xs ih => simp [List.cons_append, Nat.succ_add, List.drop_succ_cons, ih]
  simp [occAt, hd a]

theorem occAt_append_ext {eqv : Char → Char → Bool} {pat s : Str} {i : Nat}
    (h : occAt eqv pat s i = true) (t : Str) : occAt eqv pat (s ++ t) i = true := by
  by_cases hi : i ≤ s.length
  · rw [occAt, List.drop_append_of_le_length hi]
    exact startsWithBy_append h t
  · rw [occAt] at h
    rw [List.drop_eq_nil_of_le (by omega)] at h
    cases pat with
    | nil => simp [occAt, startsWithBy]
    | cons p ps => simp [startsWithBy] at h

theorem occAt_append_left {eqv : Char → Char → Bool} {pat a : Str} {i : Nat}
    (hi : i + pat.length ≤ a.length) (b : Str) :
    occAt eqv pat (a ++ b) i = occAt eqv pat a i := by
  rw [occAt, occAt, List.drop_append_of_le_length (by omega),
    startsWithBy_append_left (by simp [List.length_drop]; omega)]

/-- Straddle analysis: an occurrence starting strictly inside `a` but not
contained in `a` forces a pattern suffix to match at the head of `b`. -/
theorem occAt_append_straddle {eqv : Char → Char → Bool} {pat a b : Str} {i : Nat}
    (h : occAt eqv pat (a ++ b) i = true) (hi : i < a.length)
    (hlen : a.length < i + pat.length) :
    0 < a.length - i ∧ a.length - i < pat.length ∧
      startsWithBy eqv (pat.drop (a.length - i)) b = true := by
  rw [occAt, List.drop_append_of_le_length (Nat.le_of_lt hi)] at h
  have hx : (a.drop i).length = a.length - i := by simp [List.length_drop]
  refine ⟨by omega, by omega, ?_⟩
  have := startsWithBy_append_split h (by omega)
  rwa [hx] at this

theorem startsWithBy_of_take {eqv : Char → Char → Bool} {pat b : Str}
    (h : startsWithBy eqv pat (b.take pat.length) = false) :
    startsWithBy eqv pat b = false := by
  rw [← startsWithBy_take]
  exact h

/-! ### The `toLowerCase`-`includes` guard versus the case-insensitive scan -/

theorem startsWithBy_lower {pat : Str} (hpat : pat.all (fun c => lowerAscii c == c) = true) :
    ∀ s : Str, startsWithBy chEq pat (toLowerCaseJS s) = startsWithBy chEqCI pat s := by
  induction pat with
  | nil => intro s; rfl
  | cons p ps ih =>
    intro s
    simp only [List.all_cons, Bool.and_eq_true, beq_iff_eq] at hpat
    cases s with
    | nil => rfl
    | cons c cs =>
      show (chEq p (lowerAscii c) && startsWithBy chEq ps (List.map lowerAscii cs)) = _
      have h1 : chEq p (lowerAscii c) = chEqCI p c := by
        simp [chEq, chEqCI, hpat.1]
      have h2 := ih (by simpa [List.all_eq_true] using hpat.2) cs
      simp only [toLowerCaseJS] at h2
      show _ = (chEqCI p c && startsWithBy chEqCI ps cs)
      rw [h1, h2]

theorem splitFirstBy_lower {pat : Str} (hpat : pat.all (fun c => lowerAscii c == c) = true) :
    ∀ s : Str, splitFirstBy chEq pat (toLowerCaseJS s)
      = (splitFirstBy chEqCI pat s).map (fun q => (toLowerCaseJS q.1, toLowerCaseJS q.2)) := by
  intro s
  induction s with
  | nil =>
    have h0 : startsWithBy chEq pat ([] : Str) = startsWithBy chEqCI pat [] := by
      simpa [toLowerCaseJS] using startsWithBy_lower hpat ([] : Str)
    show (if startsWithBy chEq pat ([] : Str) = true then _ else _) = _
    rw [h0]
    by_cases hw : startsWithBy chEqCI pat ([] : Str) = true
    · simp [hw, splitFirstBy, toLowerCaseJS]
    · rw [Bool.not_eq_true] at hw
      simp [hw, splitFirstBy]
  | cons c cs ih =>
    have hsw : startsWithBy chEq pat (lowerAscii c :: List.map lowerAscii cs)
        = startsWithBy chEqCI pat (c :: cs) := by
      simpa [toLowerCaseJS] using startsWithBy_lower hpat (c :: cs)
    show splitFirstBy chEq pat (lowerAscii c :: List.map lowerAscii cs) = _
    simp only [splitFirstBy, hsw]
    by_cases hw : startsWithBy chEqCI pat (c :: cs) = true
    · simp [hw, toLowerCaseJS]
    · rw [Bool.not_eq_true] at hw
      simp only [hw, Bool.false_eq_true, if_false]
      simp only [toLowerCaseJS] at ih
      rw [ih]
      cases splitFirstBy chEqCI pat cs with
      | none => rfl
      | some q => simp [toLowerCaseJS]

theorem includes_lower_iff {pat : Str} (hpat : pat.all (fun c => lowerAscii c == c) = true)
    (s : Str) : includesSub pat (toLowerCaseJS s) = (splitFirstBy chEqCI pat s).isSome := by
  rw [includesSub, splitFirstBy_lower hpat]
  cases splitFirstBy chEqCI pat s with
  | none => rfl
  | some q => rfl

/-! ## Lemmas about `hideBodyText` and `injectGameMode` -/

theorem startsWithBy_head_false {eqv : Char → Char → Bool} {p c : Char} {ps cs : Str}
    (h : eqv p c = false) : startsWithBy eqv (p :: ps) (c :: cs) = false := by
  simp [startsWithBy, h]

theorem occAt_false_of_length {eqv : Char → Char → Bool} {p : Char} {ps s : Str} {i : Nat}
    (h : s.length < i + (p :: ps).length) : occAt eqv (p :: ps) s i = false := by
  by_contra hc
  rw [Bool.not_eq_false] at hc
  have hle := startsWithBy_length hc
  rw [List.length_drop] at hle
  simp only [List.length_cons] at hle h
  omega

theorem head_all_lower : headClosePat.all (fun c => lowerAscii c == c) = true := by decide

theorem body_all_lower : bodyClosePat.all (fun c => lowerAscii c == c) = true := by decide

theorem headClosePat_length : headClosePat.length = 7 := by decide

theorem bodyClosePat_length : bodyClosePat.length = 7 := by decide

theorem scriptClosePat_length : scriptClosePat.length = 9 := by decide

/-- Evaluation of `hideBodyText` when the `</head>` branch fires. -/
theorem hideBodyText_of_head {s pre suf : Str}
    (hsplit : splitFirstBy chEqCI headClosePat s = some (pre, suf)) :
    hideBodyText s = pre ++ cssToInject ++ (headClosePat ++ suf.drop 7) := by
  rw [hideBodyText, includes_lower_iff head_all_lower s, hsplit]
  simp only [Option.isSome_some, if_true, replaceFirstCI, hsplit, headClosePat_length,
    List.append_assoc]

/-- Evaluation of `hideBodyText` when the `</body>` branch fires. -/
theorem hideBodyText_of_body {s pre suf : Str}
    (hno : splitFirstBy chEqCI headClosePat s = none)
    (hsplit : splitFirstBy chEqCI bodyClosePat s = some (pre, suf)) :
    hideBodyText s = pre ++ cssToInject ++ (bodyClosePat ++ suf.drop 7) := by
  rw [hideBodyText, includes_lower_iff head_all_lower s, hno,
    includes_lower_iff body_all_lower s, hsplit]
  simp only [Option.isSome_none, Bool.false_eq_true, if_false, Option.isSome_some, if_true,
    replaceFirstCI, hsplit, bodyClosePat_length, List.append_assoc]

/-- Evaluation of `hideBodyText` when neither close tag occurs. -/
theorem hideBodyText_of_none {s : Str}
    (h1 : splitFirstBy chEqCI headClosePat s = none)
    (h2 : splitFirstBy chEqCI bodyClosePat s = none) :
    hideBodyText s = s ++ cssToInject := by
  rw [hideBodyText, includes_lower_iff head_all_lower s, h1,
    includes_lower_iff body_all_lower s, h2]
  simp

/-- The length of `hideBodyText` output is always input length plus the CSS
block length. -/
theorem hideBodyText_length (s : Str) :
    (hideBodyText s).length = s.length + cssToInject.length := by
  rcases h1 : splitFirstBy chEqCI headClosePat s with _ | ⟨pre, suf⟩
  · rcases h2 : splitFirstBy chEqCI bodyClosePat s with _ | ⟨pre, suf⟩
    · rw [hideBodyText_of_none h1 h2]
      simp [List.length_append]
    · obtain ⟨hdec, hsw, _⟩ := splitFirstBy_sound h2
      have hlen : 7 ≤ suf.length := by
        have := startsWithBy_length hsw
        rwa [bodyClosePat_length] at this
      rw [hideBodyText_of_body h1 h2, hdec]
      simp [List.length_append, bodyClosePat_length, List.length_drop]
      omega
  · obtain ⟨hdec, hsw, _⟩ := splitFirstBy_sound h1
    have hlen : 7 ≤ suf.length := by
      have := startsWithBy_length hsw
      rwa [headClosePat_length] at this
    rw [hideBodyText_of_head h1, hdec]
    simp [List.length_append, headClosePat_length, List.length_drop]
    omega

/-- Evaluation of `injectGameMode` when no `</script>` occurs. -/
theorem injectGameMode_of_none {s : Str}
    (h : splitLastBy chEqCI scriptClosePat s = none) :
    injectGameMode s = s ++ scriptOpenModule ++ gameScript ++ scriptClosePat := by
  rw [injectGameMode, h]

/-- Evaluation of `injectGameMode` at the last `</script>` occurrence. -/
theorem injectGameMode_of_some {s pre suf : Str}
    (h : splitLastBy chEqCI scriptClosePat s = some (pre, suf)) :
    injectGameMode s = pre ++ ('\n' :: gameScript) ++ ('\n' :: scriptClosePat) ++ suf.drop 9 := by
  rw [injectGameMode, h, scriptClosePat_length]

/-- No pattern-suffix of `</script>` can match where the full `</script>`
pattern is required (all proper suffixes start with a character other than
`<`). -/
theorem scriptClose_no_suffix_match (rest : Str) :
    ∀ j, 0 < j → j < 9 →
      startsWithBy chEqCI scriptClosePat (scriptClosePat.drop j ++ rest) = false := by
  intro j h1 h2
  interval_cases j
  · exact startsWithBy_head_false (by decide)
  · exact startsWithBy_head_false (by decide)
  · exact startsWithBy_head_false (by decide)
  · exact startsWithBy_head_false (by decide)
  · exact startsWithBy_head_false (by decide)
  · exact startsWithBy_head_false (by decide)
  · exact startsWithBy_head_false (by decide)
  · exact startsWithBy_head_false (by decide)

/-- After the spliced `</script>` tag nothing later matches `</script>`
case-insensitively, provided the original tail `rest` is clean. -/
theorem no_occ_after_close {rest : Str}
    (hrest : ∀ m, occAt chEqCI scriptClosePat rest m = false) :
    ∀ j, 0 < j → occAt chEqCI scriptClosePat (scriptClosePat ++ rest) j = false := by
  intro j hj
  by_cases h9 : j < 9
  · rw [occAt, List.drop_append_of_le_length (by rw [scriptClosePat_length]; omega)]
    exact scriptClose_no_suffix_match rest j hj h9
  · have h9' : 9 ≤ j := by omega
    rw [occAt, List.drop_append_eq_append_drop]
    rw [List.drop_eq_nil_of_le (by rw [scriptClosePat_length]; omega), List.nil_append]
    exact hrest (j - scriptClosePat.length)

theorem occAt_false_of_length' {eqv : Char → Char → Bool} {pat s : Str} {i : Nat}
    (hp : pat ≠ []) (h : s.length < i + pat.length) : occAt eqv pat s i = false := by
  cases pat with
  | nil => exact absurd rfl hp
  | cons p ps => exact occAt_false_of_length h

/-- C1: `injectGameMode` splices the controller script body immediately
before the last case-insensitive `</script>` closing tag (the occurrence
with no later occurrence), leaving everything before that point in place;
when the input has no `</script>` at all it instead appends a new
`<script type="module">…</script>` element holding the controller script at
the end of the document. -/
theorem c1_inject_controller_placement :
    (∀ s : Str, (∀ i, occAt chEqCI scriptClosePat s i = false) →
      injectGameMode s = s ++ scriptOpenModule ++ gameScript ++ scriptClosePat) ∧
    (∀ s pre suf : Str, s = pre ++ suf → startsWithBy chEqCI scriptClosePat suf = true →
      (∀ i, pre.length < i → occAt chEqCI scriptClosePat s i = false) →
      injectGameMode s
        = pre ++ ('\n' :: gameScript) ++ ('\n' :: scriptClosePat) ++ suf.drop 9) := by
  constructor
  · intro s h
    exact injectGameMode_of_none (splitLastBy_none_iff.mpr h)
  · intro s pre suf hdec hsw hlast
    subst hdec
    exact injectGameMode_of_some (splitLastBy_complete hsw hlast)

/-- Witness for C1 on a concrete document with one `</script>` tag. -/
theorem c1_inject_controller_placement_witness :
    injectGameMode (("<x></script>").data)
      = ("<x>").data ++ ('\n' :: gameScript) ++ ('\n' :: scriptClosePat)
        ++ (("</script>").data).drop 9 := by
  apply c1_inject_controller_placement.2 (("<x></script>").data) (("<x>").data)
    (("</script>").data) (by decide) (by decide)
  intro i hi
  by_cases hlen : i < 13
  · have h3 : 3 < i := by simpa using hi
    interval_cases i <;> decide
  · exact occAt_false_of_length' (by decide)
      (by rw [scriptClosePat_length]; simp; omega)

/-- C3: `hideBodyText` always returns a string exactly `cssToInject.length`
longer than its input, and places the CSS block immediately before the first
case-insensitive `</head>` if one exists, else immediately before the first
case-insensitive `</body>` if one exists, else at the very end. -/
theorem c3_hide_ui_chrome :
    (∀ s : Str, (hideBodyText s).length = s.length + cssToInject.length) ∧
    (∀ s pre suf : Str, s = pre ++ suf → startsWithBy chEqCI headClosePat suf = true →
      (∀ i < pre.length, occAt chEqCI headClosePat s i = false) →
      hideBodyText s = pre ++ cssToInject ++ (headClosePat ++ suf.drop 7)) ∧
    (∀ s pre suf : Str, (∀ i, occAt chEqCI headClosePat s i = false) →
      s = pre ++ suf → startsWithBy chEqCI bodyClosePat suf = true →
      (∀ i < pre.length, occAt chEqCI bodyClosePat s i = false) →
      hideBodyText s = pre ++ cssToInject ++ (bodyClosePat ++ suf.drop 7)) ∧
    (∀ s : Str, (∀ i, occAt chEqCI headClosePat s i = false) →
      (∀ i, occAt chEqCI bodyClosePat s i = false) →
      hideBodyText s = s ++ cssToInject) := by
  refine ⟨hideBodyText_length, ?_, ?_, ?_⟩
  · intro s pre suf hdec hsw hfirst
    subst hdec
    exact hideBodyText_of_head (splitFirstBy_complete hsw hfirst)
  · intro s pre suf hnohead hdec hsw hfirst
    subst hdec
    exact hideBodyText_of_body (splitFirstBy_none_iff.mpr hnohead)
      (splitFirstBy_complete hsw hfirst)
  · intro s h1 h2
    exact hideBodyText_of_none (splitFirstBy_none_iff.mpr h1) (splitFirstBy_none_iff.mpr h2)

/-- Witness for C3 on a concrete document with a `</head>` tag. -/
theorem c3_hide_ui_chrome_witness :
    hideBodyText (("<x></head><y>").data)
      = ("<x>").data ++ cssToInject ++ (headClosePat ++ (("</head><y>").data).drop 7) := by
  exact c3_hide_ui_chrome.2.1 (("<x></head><y>").data) (("<x>").data) (("</head><y>").data)
    (by decide) (by decide) (by decide)

/-- C10: both splicing stages normalise the casing of the tag they splice
against: an uppercase first `</HEAD>` (resp. `</BODY>`, last `</SCRIPT>`) is
re-emitted lowercase after the inserted block, so the output is not exactly
the input with a block inserted. -/
theorem c10_case_normalization :
    (∀ a b : Str,
      (∀ i < a.length, occAt chEqCI headClosePat (a ++ ("</HEAD>").data ++ b) i = false) →
      hideBodyText (a ++ ("</HEAD>").data ++ b) = a ++ cssToInject ++ (headClosePat ++ b)) ∧
    (∀ a b : Str,
      (∀ i, occAt chEqCI headClosePat (a ++ ("</BODY>").data ++ b) i = false) →
      (∀ i < a.length, occAt chEqCI bodyClosePat (a ++ ("</BODY>").data ++ b) i = false) →
      hideBodyText (a ++ ("</BODY>").data ++ b) = a ++ cssToInject ++ (bodyClosePat ++ b)) ∧
    (∀ a b : Str,
      (∀ i, a.length < i → occAt chEqCI scriptClosePat (a ++ ("</SCRIPT>").data ++ b) i = false) →
      injectGameMode (a ++ ("</SCRIPT>").data ++ b)
        = a ++ ('\n' :: gameScript) ++ ('\n' :: scriptClosePat) ++ b) ∧
    hideBodyText (("<p></HEAD>").data) ≠ ("<p>").data ++ cssToInject ++ ("</HEAD>").data := by
  refine ⟨?_, ?_, ?_, by decide⟩
  · intro a b hfirst
    rw [List.append_assoc] at hfirst ⊢
    have hsw : startsWithBy chEqCI headClosePat (("</HEAD>").data ++ b) = true :=
      startsWithBy_append (by decide) b
    have := hideBodyText_of_head (splitFirstBy_complete hsw hfirst)
    rwa [List.drop_left' (by decide : (("</HEAD>").data).length = 7)] at this
  · intro a b hnohead hfirst
    rw [List.append_assoc] at hnohead hfirst ⊢
    have hsw : startsWithBy chEqCI bodyClosePat (("</BODY>").data ++ b) = true :=
      startsWithBy_append (by decide) b
    have := hideBodyText_of_body (splitFirstBy_none_iff.mpr hnohead)
      (splitFirstBy_complete hsw hfirst)
    rwa [List.drop_left' (by decide : (("</BODY>").data).length = 7)] at this
  · intro a b hlast
    rw [List.append_assoc] at hlast ⊢
    have hsw : startsWithBy chEqCI scriptClosePat (("</SCRIPT>").data ++ b) = true :=
      startsWithBy_append (by decide) b
    have := injectGameMode_of_some (splitLastBy_complete hsw hlast)
    rw [List.drop_left' (by decide : (("</SCRIPT>").data).length = 9)] at this
    exact this

/-- Witness for C10 on concrete inputs with uppercase tags. -/
theorem c10_case_normalization_witness :
    hideBodyText (("<a>").data ++ ("</HEAD>").data ++ ("<b>").data)
      = ("<a>").data ++ cssToInject ++ (headClosePat ++ ("<b>").data) := by
  exact c10_case_normalization.1 (("<a>").data) (("<b>").data) (by decide)

/-! ### Reapplication analysis (C8) -/

/-- The CSS block contains no case-insensitive `</head>`: the first
occurrence in `cssToInject ++ headClosePat` is at the very end. -/
theorem css_head_split :
    splitFirstBy chEqCI headClosePat (cssToInject ++ headClosePat)
      = some (cssToInject, headClosePat) := by decide

theorem css_head_first :
    ∀ m < cssToInject.length, occAt chEqCI headClosePat (cssToInject ++ headClosePat) m = false :=
  (splitFirstBy_sound css_head_split).2.2

/-- No proper suffix of the `</head>` pattern matches at the head of the CSS
block (which starts with a newline). -/
theorem headClose_no_suffix_at_css (x : Str) :
    ∀ k, 0 < k → k < 7 →
      startsWithBy chEqCI (headClosePat.drop k) (cssToInject ++ x) = false := by
  intro k h1 h2
  interval_cases k
  · exact startsWithBy_head_false (by decide)
  · exact startsWithBy_head_false (by decide)
  · exact startsWithBy_head_false (by decide)
  · exact startsWithBy_head_false (by decide)
  · exact startsWithBy_head_false (by decide)
  · exact startsWithBy_head_false (by decide)

/-- C8: neither splicing stage deduplicates.  Re-running `hideBodyText` on a
document that had a `</head>` tag inserts a second copy of the CSS block (so
the double application grows the input by exactly twice the CSS length), and
re-running `injectGameMode` inserts a second copy of the controller script,
in both placement cases, without otherwise disturbing the document. -/
theorem c8_reapplication_duplicates :
    (∀ s : Str,
      (hideBodyText (hideBodyText s)).length = s.length + 2 * cssToInject.length) ∧
    (∀ s pre suf : Str, s = pre ++ suf → startsWithBy chEqCI headClosePat suf = true →
      (∀ i < pre.length, occAt chEqCI headClosePat s i = false) →
      hideBodyText (hideBodyText s)
        = pre ++ cssToInject ++ (cssToInject ++ (headClosePat ++ suf.drop 7))) ∧
    (∀ s : Str, (∀ i, occAt chEqCI scriptClosePat s i = false) →
      injectGameMode (injectGameMode s)
        = s ++ scriptOpenModule ++ gameScript ++ ('\n' :: gameScript)
          ++ ('\n' :: scriptClosePat)) ∧
    (∀ s pre suf : Str, s = pre ++ suf → startsWithBy chEqCI scriptClosePat suf = true →
      (∀ i, pre.length < i → occAt chEqCI scriptClosePat s i = false) →
      injectGameMode (injectGameMode s)
        = pre ++ ('\n' :: gameScript) ++ ('\n' :: ('\n' :: gameScript))
          ++ ('\n' :: scriptClosePat) ++ suf.drop 9) := by
  refine ⟨?_, ?_, ?_, ?_⟩
  · intro s
    rw [hideBodyText_length, hideBodyText_length]
    omega
  · intro s pre suf hdec hsw hfirst
    subst hdec
    have hs1 : splitFirstBy chEqCI headClosePat (pre ++ suf) = some (pre, suf) :=
      splitFirstBy_complete hsw hfirst
    rw [hideBodyText_of_head hs1]
    have hs2 : splitFirstBy chEqCI headClosePat
        ((pre ++ cssToInject) ++ (headClosePat ++ suf.drop 7))
        = some (pre ++ cssToInject, headClosePat ++ suf.drop 7) := by
      apply splitFirstBy_complete (startsWithBy_append (by decide) _)
      intro i hi
      rw [List.length_append] at hi
      by_cases hpre : i < pre.length
      · by_cases hcont : i + 7 ≤ pre.length
        · rw [occAt_append_left (by rw [headClosePat_length]; rw [List.length_append]; omega),
            occAt_append_left (by rw [headClosePat_length]; omega)]
          have e3 := @occAt_append_left chEqCI headClosePat pre i
            (by rw [headClosePat_length]; omega) suf
          rw [← e3]
          exact hfirst i hpre
        · by_contra hc
          rw [Bool.not_eq_false] at hc
          rw [List.append_assoc] at hc
          obtain ⟨hk1, hk2, hk3⟩ := occAt_append_straddle hc hpre
            (by rw [headClosePat_length]; omega)
          rw [headClose_no_suffix_at_css (headClosePat ++ suf.drop 7) (pre.length - i) hk1
            (by rw [headClosePat_length] at hk2; omega)] at hk3
          exact absurd hk3 (by simp)
      · have hi' : i = pre.length + (i - pre.length) := by omega
        rw [List.append_assoc, hi', occAt_append_add]
        rw [show cssToInject ++ (headClosePat ++ suf.drop 7)
            = (cssToInject ++ headClosePat) ++ suf.drop 7 by rw [List.append_assoc]]
        rw [occAt_append_left
          (by rw [List.length_append, headClosePat_length]; omega)]
        exact css_head_first (i - pre.length) (by omega)
    rw [hideBodyText_of_head hs2, List.drop_left' headClosePat_length]
    simp [List.append_assoc]
  · intro s h
    rw [injectGameMode_of_none (splitLastBy_none_iff.mpr h)]
    have hs2 : splitLastBy chEqCI scriptClosePat
        (s ++ scriptOpenModule ++ gameScript ++ scriptClosePat)
        = some (s ++ scriptOpenModule ++ gameScript, scriptClosePat) := by
      apply splitLastBy_complete (by decide)
      intro i hi
      apply occAt_false_of_length' (by decide)
      rw [List.length_append, scriptClosePat_length]
      omega
    rw [injectGameMode_of_some hs2]
    rw [show scriptClosePat.drop 9 = [] by decide]
    simp [List.append_assoc]
  · intro s pre suf hdec hsw hlast
    subst hdec
    have hs1 : splitLastBy chEqCI scriptClosePat (pre ++ suf) = some (pre, suf) :=
      splitLastBy_complete hsw hlast
    rw [injectGameMode_of_some hs1]
    have hregroup : pre ++ ('\n' :: gameScript) ++ ('\n' :: scriptClosePat) ++ suf.drop 9
        = (pre ++ ('\n' :: gameScript) ++ ['\n']) ++ (scriptClosePat ++ suf.drop 9) := by
      simp [List.append_assoc]
    rw [hregroup]
    have hrest : ∀ m, occAt chEqCI scriptClosePat (suf.drop 9) m = false := by
      intro m
      have hdd : (suf.drop 9).drop m = suf.drop (9 + m) := by
        rw [List.drop_drop, Nat.add_comm]
      rw [occAt, hdd, ← occAt]
      have := @occAt_append_add chEqCI scriptClosePat pre suf (9 + m)
      rw [← this]
      exact hlast (pre.length + (9 + m)) (by omega)
    have hs2 : splitLastBy chEqCI scriptClosePat
        ((pre ++ ('\n' :: gameScript) ++ ['\n']) ++ (scriptClosePat ++ suf.drop 9))
        = some (pre ++ ('\n' :: gameScript) ++ ['\n'], scriptClosePat ++ suf.drop 9) := by
      apply splitLastBy_complete (startsWithBy_append (by decide) _)
      intro i hi
      have hi' : i = (pre ++ ('\n' :: gameScript) ++ ['\n']).length
          + (i - (pre ++ ('\n' :: gameScript) ++ ['\n']).length) := by omega
      rw [hi', occAt_append_add]
      exact no_occ_after_close hrest _ (by omega)
    rw [injectGameMode_of_some hs2, List.drop_left' scriptClosePat_length]
    simp [List.append_assoc]

/-- Witness for C8: double `hideBodyText` on a document with `</head>`, and
double `injectGameMode` on a document with no `</script>`. -/
theorem c8_reapplication_duplicates_witness :
    hideBodyText (hideBodyText (("<x></head><y>").data))
      = ("<x>").data ++ cssToInject ++ (cssToInject ++ (headClosePat ++ (("</head><y>").data).drop 7)) ∧
    injectGameMode (injectGameMode (("<p>x</p>").data))
      = ("<p>x</p>").data ++ scriptOpenModule ++ gameScript ++ ('\n' :: gameScript)
        ++ ('\n' :: scriptClosePat) := by
  constructor
  · exact c8_reapplication_duplicates.2.1 (("<x></head><y>").data) (("<x>").data)
      (("</head><y>").data) (by decide) (by decide) (by decide)
  · apply c8_reapplication_duplicates.2.2.1 (("<p>x</p>").data)
    intro i
    by_cases hlen : i < 9
    · interval_cases i <;> decide
    · refine occAt_false_of_length' (by decide) ?_
      rw [scriptClosePat_length]
      have h8 : (("<p>x</p>").data).length = 8 := by decide
      omega

/-! ## Totality of the fuelled scan (C7) -/

theorem skipSpaces_length (s : Str) : (skipSpaces s).length ≤ s.length :=
  (List.dropWhile_suffix isSpaceJS).length_le

theorem takeDigits_rest_length : ∀ s : Str, (takeDigits s).2.length ≤ s.length
  | [] => Nat.le_refl _
  | c :: cs => by
    simp only [takeDigits]
    by_cases h : isDigitCh c = true
    · simp only [h, if_true]
      exact Nat.le_trans (takeDigits_rest_length cs) (by simp)
    · rw [Bool.not_eq_true] at h
      simp [h]

theorem parseSign_rest_length (s : Str) : (parseSign s).2.length ≤ s.length := by
  rcases s with _ | ⟨c, r⟩
  · simp [parseSign]
  · by_cases hc : c = '-' <;> simp [parseSign, hc]

theorem parseLitTail_rest_length {sign ds : Str} :
    ∀ {r x rest : Str}, parseLitTail sign ds r = some (x, rest) → rest.length ≤ r.length := by
  intro r x rest h
  rcases r with _ | ⟨c, r2⟩
  · rw [parseLitTail] at h
    by_cases he : ds.isEmpty = true
    · simp [he] at h
    · rw [Bool.not_eq_true] at he
      simp only [he, Bool.false_eq_true, if_false, Option.some_inj, Prod.mk.injEq] at h
      obtain ⟨-, rfl⟩ := h
      exact Nat.le_refl _
  · rw [parseLitTail] at h
    by_cases hc : c = '.'
    · simp only [hc, if_true] at h
      by_cases hfe : (takeDigits r2).1.isEmpty = true
      · simp only [hfe, if_true] at h
        by_cases he : ds.isEmpty = true
        · simp [he] at h
        · rw [Bool.not_eq_true] at he
          simp only [he, Bool.false_eq_true, if_false, Option.some_inj, Prod.mk.injEq] at h
          obtain ⟨-, rfl⟩ := h
          simp [hc]
      · rw [Bool.not_eq_true] at hfe
        simp only [hfe, Bool.false_eq_true, if_false, Option.some_inj, Prod.mk.injEq] at h
        obtain ⟨-, rfl⟩ := h
        have := takeDigits_rest_length r2
        simp only [List.length_cons]
        omega
    · simp only [hc, if_false] at h
      by_cases he : ds.isEmpty = true
      · simp [he] at h
      · rw [Bool.not_eq_true] at he
        simp only [he, Bool.false_eq_true, if_false, Option.some_inj, Prod.mk.injEq] at h
        obtain ⟨-, rfl⟩ := h
        exact Nat.le_refl _

theorem parseLit_rest_length {s x rest : Str} (h : parseLit s = some (x, rest)) :
    rest.length ≤ s.length := by
  rw [parseLit] at h
  exact Nat.le_trans (parseLitTail_rest_length h)
    (Nat.le_trans (takeDigits_rest_length _) (parseSign_rest_length s))

theorem expectChar_rest_length {ch : Char} {s rest : Str} (h : expectChar ch s = some rest) :
    rest.length < s.length := by
  rw [expectChar] at h
  rcases hk : skipSpaces s with _ | ⟨c, r⟩
  · rw [hk] at h
    simp at h
  · rw [hk] at h
    by_cases hc : c = ch
    · simp only [hc, if_true, Option.some_inj] at h
      subst h
      have := skipSpaces_length s
      rw [hk] at this
      simp only [List.length_cons] at this
      omega
    · simp [hc] at h

theorem matchSetArgs_rest_length {s x y z rest : Str}
    (h : matchSetArgs s = some (x, y, z, rest)) : rest.length ≤ s.length := by
  rw [matchSetArgs] at h
  rcases hb1 : parseLit (skipSpaces s) with _ | p1
  · rw [hb1] at h; simp at h
  rw [hb1] at h
  simp only [Option.some_bind] at h
  rcases hb2 : expectChar ',' p1.2 with _ | s2
  · rw [hb2] at h; simp at h
  rw [hb2] at h
  simp only [Option.some_bind] at h
  rcases hb3 : parseLit (skipSpaces s2) with _ | p2
  · rw [hb3] at h; simp at h
  rw [hb3] at h
  simp only [Option.some_bind] at h
  rcases hb4 : expectChar ',' p2.2 with _ | s4
  · rw [hb4] at h; simp at h
  rw [hb4] at h
  simp only [Option.some_bind] at h
  rcases hb5 : parseLit (skipSpaces s4) with _ | p3
  · rw [hb5] at h; simp at h
  rw [hb5] at h
  simp only [Option.some_bind] at h
  rcases hb6 : expectChar ')' p3.2 with _ | s6
  · rw [hb6] at h; simp at h
  rw [hb6] at h
  simp only [Option.map_some', Option.some_inj, Prod.mk.injEq] at h
  obtain ⟨-, -, -, rfl⟩ := h
  have l1 : p1.2.length ≤ s.length :=
    Nat.le_trans (parseLit_rest_length (by rw [hb1]))
      (skipSpaces_length s)
  have l2 := expectChar_rest_length hb2
  have l3 : p2.2.length ≤ s2.length :=
    Nat.le_trans (parseLit_rest_length (by rw [hb3])) (skipSpaces_length s2)
  have l4 := expectChar_rest_length hb4
  have l5 : p3.2.length ≤ s4.length :=
    Nat.le_trans (parseLit_rest_length (by rw [hb5])) (skipSpaces_length s4)
  have l6 := expectChar_rest_length hb6
  omega

theorem optIsSome_map {α β : Type} (g : α → β) (o : Option α) :
    (o.map g).isSome = o.isSome := by
  cases o <;> rfl

theorem zoomGo_isSome (f : F64) :
    ∀ (fuel : Nat) (s : Str), s.length < fuel → (zoomGo f fuel s).isSome = true
  | 0, s, h => by simp at h
  | fuel + 1, [], _ => by simp [zoomGo]
  | fuel + 1, c :: cs, h => by
    simp only [zoomGo]
    by_cases hsw : startsWithBy chEq setCallPat (c :: cs) = true
    · simp only [hsw, if_true]
      rcases hm : matchSetArgs ((c :: cs).drop 20) with _ | ⟨x, y, z, rest⟩
      · rw [optIsSome_map]
        exact zoomGo_isSome f fuel cs (by simp at h; omega)
      · rw [optIsSome_map]
        have hr : rest.length ≤ ((c :: cs).drop 20).length := matchSetArgs_rest_length hm
        rw [List.length_drop] at hr
        simp only [List.length_cons] at h hr
        exact zoomGo_isSome f fuel rest (by omega)
    · rw [Bool.not_eq_true] at hsw
      simp only [hsw, Bool.false_eq_true, if_false]
      rw [optIsSome_map]
      exact zoomGo_isSome f fuel cs (by simp at h; omega)

/-- C7: every one of the four pipeline stages is a total function on
strings.  In this embedding the only partial component is the fuelled
`zoomGo` scan of `zoomCamera`; its default fuel always suffices, so the
Option-valued pipeline never fails and agrees with the total composition
used by the application. -/
theorem c7_stages_total (raw : Str) (f : F64) :
    pipelineCore raw f = some (pipeline raw f) := by
  rw [pipelineCore, pipeline, zoomCamera]
  rcases hz : zoomGo f ((hideBodyText (extractHtmlFromText raw)).length + 1)
      (hideBodyText (extractHtmlFromText raw)) with _ | t
  · have := zoomGo_isSome f ((hideBodyText (extractHtmlFromText raw)).length + 1)
      (hideBodyText (extractHtmlFromText raw)) (Nat.lt_succ_self _)
    rw [hz] at this
    simp at this
  · simp [hz]

/-! ## Exact-match analysis of the `zoomCamera` pattern (C4, C5) -/

/-- The language of the mantissa `\d*\.?\d+`: all digits, or a digit run, a
single dot, and a non-empty digit run. -/
def isMant (m : Str) : Bool :=
  match splitFirstBy chEq (".").data m with
  | none => !m.isEmpty && m.all isDigitCh
  | some (ds, dotfs) =>
    ds.all isDigitCh && !(dotfs.drop 1).isEmpty && (dotfs.drop 1).all isDigitCh

/-- The language of the full capture `-?\d*\.?\d+`. -/
def isNumLit (s : Str) : Bool :=
  match s with
  | c :: r => if c = '-' then isMant r else isMant (c :: r)
  | [] => false

theorem isDigit_not_space {c : Char} (h : isDigitCh c = true) : isSpaceJS c = false := by
  simp only [isDigitCh, Bool.and_eq_true, decide_eq_true_eq] at h
  by_contra hc
  rw [Bool.not_eq_false] at hc
  simp only [isSpaceJS, Bool.or_eq_true, beq_iff_eq, Bool.and_eq_true, decide_eq_true_eq] at hc
  omega

theorem isDigit_ne_dot {c : Char} (h : isDigitCh c = true) : ¬ c = '.' := by
  simp only [isDigitCh, Bool.and_eq_true, decide_eq_true_eq] at h
  intro hc
  subst hc
  simp at h

/-- A side condition on the text following a captured literal: it is empty
or starts with a character that is neither a digit nor a dot. -/
def litBoundary (rest : Str) : Prop :=
  rest = [] ∨ ∃ c cs, rest = c :: cs ∧ isDigitCh c = false ∧ c ≠ '.'

theorem takeDigits_spec : ∀ {ds rest : Str}, ds.all isDigitCh = true →
    (rest = [] ∨ ∃ c cs, rest = c :: cs ∧ isDigitCh c = false) →
    takeDigits (ds ++ rest) = (ds, rest)
  | [], rest, _, h2 => by
    rcases h2 with rfl | ⟨c, cs, rfl, hc⟩
    · rfl
    · simp [takeDigits, hc]
  | d :: ds', rest, h1, h2 => by
    simp only [List.all_cons, Bool.and_eq_true] at h1
    rw [List.cons_append]
    simp only [takeDigits, h1.1, if_true]
    rw [takeDigits_spec h1.2 h2]

theorem dot_head_of_startsWith {dotfs : Str}
    (h : startsWithBy chEq (".").data dotfs = true) : dotfs = '.' :: dotfs.drop 1 := by
  rcases dotfs with _ | ⟨c, fs⟩
  · simp [startsWithBy] at h
  · have hc : c = '.' := by
      simp only [startsWithBy, Bool.and_eq_true] at h
      have := h.1
      simp only [chEq, beq_iff_eq] at this
      exact this.symm
    subst hc
    rfl

theorem parseLitTail_mant {sign m rest : Str} (hm : isMant m = true)
    (hrest : litBoundary rest) :
    parseLitTail sign (takeDigits (m ++ rest)).1 (takeDigits (m ++ rest)).2
      = some (sign ++ m, rest) := by
  have hrest' : rest = [] ∨ ∃ c cs, rest = c :: cs ∧ isDigitCh c = false := by
    rcases hrest with rfl | ⟨c, cs, rfl, hc, -⟩
    · exact Or.inl rfl
    · exact Or.inr ⟨c, cs, rfl, hc⟩
  rw [isMant] at hm
  rcases hsp : splitFirstBy chEq (".").data m with _ | ⟨ds, dotfs⟩
  · rw [hsp] at hm
    simp only [Bool.and_eq_true, Bool.not_eq_true'] at hm
    have hne : m.isEmpty = false := hm.1
    have hall : m.all isDigitCh = true := hm.2
    rw [takeDigits_spec hall hrest']
    rcases hrest with rfl | ⟨c, cs, rfl, hc, hcd⟩
    · rw [parseLitTail]
      simp [hne]
    · rw [parseLitTail]
      simp [hcd, hne]
  · rw [hsp] at hm
    simp only [Bool.and_eq_true, Bool.not_eq_true'] at hm
    obtain ⟨⟨hds, hfse⟩, hfs⟩ := hm
    obtain ⟨hdec, hsw, -⟩ := splitFirstBy_sound hsp
    have hdot : dotfs = '.' :: dotfs.drop 1 := dot_head_of_startsWith hsw
    set fs := dotfs.drop 1 with hfsdef
    have hm2 : m ++ rest = ds ++ ('.' :: (fs ++ rest)) := by
      rw [hdec, hdot]
      simp [List.append_assoc]
    rw [hm2, takeDigits_spec hds (Or.inr ⟨'.', fs ++ rest, rfl, by decide⟩)]
    rw [parseLitTail]
    simp only [if_true]
    rw [takeDigits_spec hfs hrest']
    have hfsne : fs.isEmpty = false := hfse
    simp only [hfsne, Bool.false_eq_true, if_false]
    rw [hdec, hdot]
    simp [List.append_assoc]

theorem parseLit_exact {x rest : Str} (hx : isNumLit x = true) (hrest : litBoundary rest) :
    parseLit (x ++ rest) = some (x, rest) := by
  rw [isNumLit.eq_def] at hx
  rcases x with _ | ⟨c, r⟩
  · simp at hx
  · by_cases hc : c = '-'
    · subst hc
      simp only [if_true] at hx
      rw [parseLit]
      have hps : parseSign (('-' :: r) ++ rest) = (['-'], r ++ rest) := by
        rw [List.cons_append, parseSign]
        simp
      rw [hps]
      exact parseLitTail_mant hx hrest
    · simp only [hc, if_false] at hx
      rw [parseLit]
      have hps : parseSign ((c :: r) ++ rest) = ([], (c :: r) ++ rest) := by
        rw [List.cons_append, parseSign]
        simp [hc]
      rw [hps]
      have := @parseLitTail_mant [] _ _ hx hrest
      rw [List.nil_append] at this
      exact this

theorem isMant_head {m : Str} (hm : isMant m = true) :
    ∃ c cs, m = c :: cs ∧ (isDigitCh c = true ∨ c = '.') := by
  rw [isMant] at hm
  rcases hsp : splitFirstBy chEq (".").data m with _ | ⟨ds, dotfs⟩
  · rw [hsp] at hm
    simp only [Bool.and_eq_true, Bool.not_eq_true'] at hm
    rcases m with _ | ⟨c, cs⟩
    · simp at hm
    · refine ⟨c, cs, rfl, Or.inl ?_⟩
      have := hm.2
      simp only [List.all_cons, Bool.and_eq_true] at this
      exact this.1
  · rw [hsp] at hm
    simp only [Bool.and_eq_true, Bool.not_eq_true'] at hm
    obtain ⟨⟨hds, -⟩, -⟩ := hm
    obtain ⟨hdec, hsw, -⟩ := splitFirstBy_sound hsp
    have hdot : dotfs = '.' :: dotfs.drop 1 := dot_head_of_startsWith hsw
    rcases ds with _ | ⟨d, ds'⟩
    · refine ⟨'.', dotfs.drop 1, ?_, Or.inr rfl⟩
      rw [hdec, List.nil_append]
      exact hdot
    · refine ⟨d, ds' ++ dotfs, ?_, Or.inl ?_⟩
      · rw [hdec, List.cons_append]
      · have := hds
        simp only [List.all_cons, Bool.and_eq_true] at this
        exact this.1

theorem isNumLit_head {x : Str} (hx : isNumLit x = true) :
    ∃ c cs, x = c :: cs ∧ isSpaceJS c = false := by
  rw [isNumLit.eq_def] at hx
  rcases x with _ | ⟨c, r⟩
  · simp at hx
  · by_cases hc : c = '-'
    · exact ⟨c, r, rfl, by rw [hc]; decide⟩
    · simp only [hc, if_false] at hx
      obtain ⟨c', cs', heq, hcase⟩ := isMant_head hx
      cases heq
      refine ⟨c, r, rfl, ?_⟩
      rcases hcase with hd | hdot
      · exact isDigit_not_space hd
      · rw [hdot]; decide

theorem skipSpaces_cons_not {c : Char} {cs : Str} (h : isSpaceJS c = false) :
    skipSpaces (c :: cs) = c :: cs := by
  simp [skipSpaces, List.dropWhile_cons, h]

theorem skipSpaces_cons_space {c : Char} {cs : Str} (h : isSpaceJS c = true) :
    skipSpaces (c :: cs) = skipSpaces cs := by
  simp [skipSpaces, List.dropWhile_cons, h]

theorem skipSpaces_numLit {x rest : Str} (hx : isNumLit x = true) :
    skipSpaces (x ++ rest) = x ++ rest := by
  obtain ⟨c, cs, rfl, hc⟩ := isNumLit_head hx
  rw [List.cons_append]
  exact skipSpaces_cons_not hc

/-- Full evaluation of `matchSetArgs` on a canonical argument list. -/
theorem matchSetArgs_exact {x y z : Str}
    (hx : isNumLit x = true) (hy : isNumLit y = true) (hz : isNumLit z = true) :
    matchSetArgs (x ++ (',' :: ' ' :: (y ++ (',' :: ' ' :: (z ++ [')'])))))
      = some (x, y, z, []) := by
  rw [matchSetArgs]
  rw [skipSpaces_numLit hx]
  rw [parseLit_exact hx (Or.inr ⟨',', _, rfl, by decide, by decide⟩)]
  simp only [Option.some_bind]
  have he1 : expectChar ',' (',' :: ' ' :: (y ++ (',' :: ' ' :: (z ++ [')']))))
      = some (' ' :: (y ++ (',' :: ' ' :: (z ++ [')'])))) := by
    rw [expectChar, skipSpaces_cons_not (by decide)]
    simp
  rw [he1]
  simp only [Option.some_bind]
  rw [show skipSpaces (' ' :: (y ++ (',' :: ' ' :: (z ++ [')']))))
      = skipSpaces (y ++ (',' :: ' ' :: (z ++ [')'])))
    from skipSpaces_cons_space (by decide)]
  rw [skipSpaces_numLit hy]
  rw [parseLit_exact hy (Or.inr ⟨',', _, rfl, by decide, by decide⟩)]
  simp only [Option.some_bind]
  have he2 : expectChar ',' (',' :: ' ' :: (z ++ [')']))
      = some (' ' :: (z ++ [')'])) := by
    rw [expectChar, skipSpaces_cons_not (by decide)]
    simp
  rw [he2]
  simp only [Option.some_bind]
  rw [show skipSpaces (' ' :: (z ++ [')'])) = skipSpaces (z ++ [')'])
    from skipSpaces_cons_space (by decide)]
  rw [skipSpaces_numLit hz]
  rw [parseLit_exact hz (Or.inr ⟨')', _, rfl, by decide, by decide⟩)]
  simp only [Option.some_bind]
  have he3 : expectChar ')' ([')'] : Str) = some [] := by
    rw [expectChar, skipSpaces_cons_not (by decide)]
    simp
  rw [he3]
  rfl

theorem zoomGo_head_match (f : F64) (fuel : Nat) {s x y z rest : Str}
    (hsw : startsWithBy chEq setCallPat s = true)
    (hm : matchSetArgs (s.drop 20) = some (x, y, z, rest)) :
    zoomGo f (fuel + 1) s
      = (zoomGo f fuel rest).map (fun t => setReplacement f x y z ++ t) := by
  rcases s with _ | ⟨c, cs⟩
  · simp [startsWithBy] at hsw
  · simp only [zoomGo, hsw, if_true, hm]

theorem zoomGo_nil (f : F64) {fuel : Nat} (h : 0 < fuel) : zoomGo f fuel [] = some [] := by
  rcases fuel with _ | n
  · simp at h
  · rfl

theorem setCallPat_startsWith_self : startsWithBy chEq setCallPat setCallPat = true := by decide

/-- C4: a camera-position-set invocation with three signed decimal literal
arguments is rewritten to the same call syntax whose arguments are the
parsed binary64 values multiplied by the factor and rendered by the
ECMA-262 default number-to-string conversion; in particular
`zoomCamera "camera.position.set(10, -5, 2.5)" 0.5
  = "camera.position.set(5, -2.5, 1.25)"`. -/
theorem c4_rescale_camera :
    (∀ (f : F64) (x y z : Str),
      isNumLit x = true → isNumLit y = true → isNumLit z = true →
      zoomCamera (setCallPat ++ (x ++ (',' :: ' ' :: (y ++ (',' :: ' ' :: (z ++ [')'])))))) f
        = setCallPat ++ jsNumberToString (mulF64 (parseFloatLit x) f) ++ (", ").data
            ++ jsNumberToString (mulF64 (parseFloatLit y) f) ++ (", ").data
            ++ jsNumberToString (mulF64 (parseFloatLit z) f) ++ [')']) ∧
    zoomCamera (("camera.position.set(10, -5, 2.5)").data) (mkF64 false 5 10)
      = ("camera.position.set(5, -2.5, 1.25)").data := by
  constructor
  · intro f x y z hx hy hz
    have hsw : startsWithBy chEq setCallPat
        (setCallPat ++ (x ++ (',' :: ' ' :: (y ++ (',' :: ' ' :: (z ++ [')'])))))) = true :=
      startsWithBy_append setCallPat_startsWith_self _
    have hdrop : (setCallPat ++ (x ++ (',' :: ' ' :: (y ++ (',' :: ' ' :: (z ++ [')'])))))).drop 20
        = x ++ (',' :: ' ' :: (y ++ (',' :: ' ' :: (z ++ [')'])))) :=
      List.drop_left' (by decide)
    have hm := matchSetArgs_exact hx hy hz
    rw [zoomCamera]
    rw [zoomGo_head_match f _ hsw (by rw [hdrop]; exact hm)]
    rw [zoomGo_nil f (by simp [List.length_append])]
    simp only [Option.map_some', Option.getD_some, List.append_nil]
    rw [setReplacement]
  · decide

/-- Witness for C4 at the concrete invocation from the specification. -/
theorem c4_rescale_camera_witness :
    zoomCamera (setCallPat ++ (("10").data ++ (',' :: ' ' :: (("-5").data
        ++ (',' :: ' ' :: (("2.5").data ++ [')'])))))) (mkF64 false 5 10)
      = setCallPat ++ jsNumberToString (mulF64 (parseFloatLit (("10").data)) (mkF64 false 5 10))
          ++ (", ").data
          ++ jsNumberToString (mulF64 (parseFloatLit (("-5").data)) (mkF64 false 5 10))
          ++ (", ").data
          ++ jsNumberToString (mulF64 (parseFloatLit (("2.5").data)) (mkF64 false 5 10))
          ++ [')'] :=
  c4_rescale_camera.1 (mkF64 false 5 10) (("10").data) (("-5").data) (("2.5").data)
    (by decide) (by decide) (by decide)

/-- A successful match of the full `zoomCamera` pattern at position `i`. -/
def setMatchAt (s : Str) (i : Nat) : Bool :=
  startsWithBy chEq setCallPat (s.drop i) && (matchSetArgs ((s.drop i).drop 20)).isSome

theorem setMatchAt_cons_succ {c : Char} {cs : Str} {i : Nat} :
    setMatchAt (c :: cs) (i + 1) = setMatchAt cs i := by
  simp [setMatchAt, List.drop_succ_cons]

theorem setMatchAt_ge_length {s : Str} {i : Nat} (h : s.length ≤ i) :
    setMatchAt s i = false := by
  rw [setMatchAt, List.drop_eq_nil_of_le h]
  rfl

theorem zoomGo_id (f : F64) :
    ∀ (fuel : Nat) (s : Str), (∀ i, setMatchAt s i = false) → s.length < fuel →
      zoomGo f fuel s = some s
  | 0, s, _, h => by simp at h
  | _ + 1, [], _, _ => rfl
  | fuel + 1, c :: cs, hno, h => by
    have h0 := hno 0
    rw [setMatchAt] at h0
    simp only [List.drop_zero] at h0
    have hrec : zoomGo f fuel cs = some cs :=
      zoomGo_id f fuel cs (fun i => by rw [← setMatchAt_cons_succ]; exact hno (i + 1))
        (by simp at h; omega)
    simp only [zoomGo]
    by_cases hsw : startsWithBy chEq setCallPat (c :: cs) = true
    · rw [hsw] at h0
      simp only [Bool.true_and] at h0
      have hm : matchSetArgs ((c :: cs).drop 20) = none := by
        rcases hmm : matchSetArgs ((c :: cs).drop 20) with _ | v
        · rfl
        · rw [hmm] at h0; simp at h0
      simp only [hsw, if_true, hm, hrec, Option.map_some']
    · rw [Bool.not_eq_true] at hsw
      simp only [hsw, Bool.false_eq_true, if_false, hrec, Option.map_some']

theorem zoomCamera_id {s : Str} (h : ∀ i, setMatchAt s i = false) (f : F64) :
    zoomCamera s f = s := by
  rw [zoomCamera, zoomGo_id f (s.length + 1) s h (Nat.lt_succ_self _)]
  rfl

/-- C5: `zoomCamera` rewrites all matches of the call pattern and leaves
everything else unchanged: a document with no full match is returned
byte-for-byte (so the wrong-arity call `camera.position.set(1,2)` and the
wrong-identifier call `cam.position.set(1,2,3)` are unchanged for every
factor), while a document with two matches has both rewritten and all
surrounding text preserved. -/
theorem c5_rescale_global_and_frame :
    (∀ (s : Str) (f : F64), (∀ i, setMatchAt s i = false) → zoomCamera s f = s) ∧
    (∀ f : F64, zoomCamera (("camera.position.set(1,2)").data) f
      = ("camera.position.set(1,2)").data) ∧
    (∀ f : F64, zoomCamera (("cam.position.set(1,2,3)").data) f
      = ("cam.position.set(1,2,3)").data) ∧
    zoomCamera (("A camera.position.set(1, 2, 3); B camera.position.set(4,5,6); C").data)
        (mkF64 false 5 10)
      = ("A camera.position.set(0.5, 1, 1.5); B camera.position.set(2, 2.5, 3); C").data := by
  refine ⟨fun s f h => zoomCamera_id h f, fun f => ?_, fun f => ?_, by decide⟩
  · apply zoomCamera_id
    intro i
    by_cases hl : i < 24
    · interval_cases i <;> decide
    · refine setMatchAt_ge_length ?_
      have h24 : (("camera.position.set(1,2)").data).length = 24 := by decide
      omega
  · apply zoomCamera_id
    intro i
    by_cases hl : i < 23
    · interval_cases i <;> decide
    · refine setMatchAt_ge_length ?_
      have h23 : (("cam.position.set(1,2,3)").data).length = 23 := by decide
      omega

/-- Witness for C5 on a concrete no-match input. -/
theorem c5_rescale_global_and_frame_witness :
    zoomCamera (("cam.position.set(1,2,3)").data) zoom08 = ("cam.position.set(1,2,3)").data :=
  c5_rescale_global_and_frame.2.2.1 zoom08

/-! ## Characterisation of the extraction scanners (C2, C9) -/

/-- A position admits a full match of the document regex: a marker
(`<!DOCTYPE html>` or `<html`, case-insensitively) with a `</html>` at or
after its end. -/
def markerWithClose (t : Str) : Bool :=
  (startsWithBy chEqCI doctypePat t && (splitFirstBy chEqCI htmlClosePat (t.drop 15)).isSome)
  || (startsWithBy chEqCI htmlOpenPat t && (splitFirstBy chEqCI htmlClosePat (t.drop 5)).isSome)

/-- A position admits a full match of the fence regex. -/
def fenceOk (t : Str) : Bool :=
  startsWithBy chEq fencePat t && (splitFirstBy chEq fencePat (fenceSkip (t.drop 3))).isSome

theorem doctype_html_incompat {t : Str} (h1 : startsWithBy chEqCI doctypePat t = true)
    (h2 : startsWithBy chEqCI htmlOpenPat t = true) : False := by
  have hd : doctypePat = '<' :: ('!' :: (("DOCTYPE html>").data)) := by decide
  have hh : htmlOpenPat = '<' :: ('h' :: (("tml").data)) := by decide
  rw [hd] at h1
  rw [hh] at h2
  rcases t with _ | ⟨a, t1⟩
  · simp [startsWithBy] at h1
  rcases t1 with _ | ⟨b, t2⟩
  · simp only [startsWithBy, Bool.and_eq_true] at h1
    exact absurd h1.2 (by simp [startsWithBy])
  · simp only [startsWithBy, Bool.and_eq_true] at h1 h2
    have e1 : lowerAscii '!' = lowerAscii b := by
      have := h1.2.1
      simpa [chEqCI] using this
    have e2 : lowerAscii 'h' = lowerAscii b := by
      have := h2.2.1
      simpa [chEqCI] using this
    have : lowerAscii '!' = lowerAscii 'h' := e1.trans e2.symm
    exact absurd this (by decide)

theorem tryHtmlAt_none_iff {t : Str} : tryHtmlAt t = none ↔ markerWithClose t = false := by
  rw [tryHtmlAt, markerWithClose]
  by_cases hd : startsWithBy chEqCI doctypePat t = true
  · have hh : startsWithBy chEqCI htmlOpenPat t = false := by
      by_contra hc
      rw [Bool.not_eq_false] at hc
      exact doctype_html_incompat hd hc
    simp only [hd, if_true, Bool.true_and, hh, Bool.false_and, Bool.or_false]
    rcases splitFirstBy chEqCI htmlClosePat (t.drop 15) with _ | p
    · simp
    · simp
  · rw [Bool.not_eq_true] at hd
    simp only [hd, Bool.false_eq_true, if_false, Bool.false_and, Bool.false_or]
    by_cases hh : startsWithBy chEqCI htmlOpenPat t = true
    · simp only [hh, if_true, Bool.true_and]
      rcases splitFirstBy chEqCI htmlClosePat (t.drop 5) with _ | p
      · simp
      · simp
    · rw [Bool.not_eq_true] at hh
      simp [hh]

theorem tryHtmlAt_doctype {t g suf : Str} (hd : startsWithBy chEqCI doctypePat t = true)
    (hs : splitFirstBy chEqCI htmlClosePat (t.drop 15) = some (g, suf)) :
    tryHtmlAt t = some (t.take 15 ++ g ++ suf.take 7) := by
  rw [tryHtmlAt]
  simp [hd, hs]

theorem tryHtmlAt_html {t g suf : Str} (hd : startsWithBy chEqCI doctypePat t = false)
    (hh : startsWithBy chEqCI htmlOpenPat t = true)
    (hs : splitFirstBy chEqCI htmlClosePat (t.drop 5) = some (g, suf)) :
    tryHtmlAt t = some (t.take 5 ++ g ++ suf.take 7) := by
  rw [tryHtmlAt]
  simp [hd, hh, hs]

theorem tryHtmlAt_sound {t r : Str} (h : tryHtmlAt t = some r) :
    (∃ g suf, startsWithBy chEqCI doctypePat t = true ∧
      splitFirstBy chEqCI htmlClosePat (t.drop 15) = some (g, suf) ∧
      r = t.take 15 ++ g ++ suf.take 7) ∨
    (∃ g suf, startsWithBy chEqCI doctypePat t = false ∧
      startsWithBy chEqCI htmlOpenPat t = true ∧
      splitFirstBy chEqCI htmlClosePat (t.drop 5) = some (g, suf) ∧
      r = t.take 5 ++ g ++ suf.take 7) := by
  rw [tryHtmlAt] at h
  by_cases hd : startsWithBy chEqCI doctypePat t = true
  · rw [if_pos hd] at h
    rcases hs : splitFirstBy chEqCI htmlClosePat (t.drop 15) with _ | ⟨g, suf⟩
    · rw [hs] at h; simp at h
    · rw [hs] at h
      simp only [Option.some_inj] at h
      exact Or.inl ⟨g, suf, hd, rfl, h.symm⟩
  · rw [Bool.not_eq_true] at hd
    rw [hd] at h
    simp only [Bool.false_eq_true, if_false] at h
    by_cases hh : startsWithBy chEqCI htmlOpenPat t = true
    · rw [if_pos hh] at h
      rcases hs : splitFirstBy chEqCI htmlClosePat (t.drop 5) with _ | ⟨g, suf⟩
      · rw [hs] at h; simp at h
      · rw [hs] at h
        simp only [Option.some_inj] at h
        exact Or.inr ⟨g, suf, hd, hh, rfl, h.symm⟩
    · rw [Bool.not_eq_true] at hh
      rw [hh] at h
      simp at h

theorem tryHtmlAt_nil : tryHtmlAt ([] : Str) = none := by decide

theorem findHtmlMatch_none_iff :
    ∀ {s : Str}, findHtmlMatch s = none ↔ ∀ i, tryHtmlAt (s.drop i) = none
  | [] => by
    constructor
    · intro _ i
      rw [List.drop_nil]
      exact tryHtmlAt_nil
    · intro _
      rfl
  | c :: cs => by
    constructor
    · intro h i
      rw [findHtmlMatch] at h
      rcases ht : tryHtmlAt (c :: cs) with _ | m
      · rw [ht] at h
        cases i with
        | zero => exact ht
        | succ j =>
          rw [List.drop_succ_cons]
          exact (findHtmlMatch_none_iff).mp h j
      · rw [ht] at h
        simp at h
    · intro h
      rw [findHtmlMatch]
      have h0 := h 0
      rw [List.drop_zero] at h0
      rw [h0]
      exact (findHtmlMatch_none_iff).mpr fun i => by
        have := h (i + 1)
        rwa [List.drop_succ_cons] at this

theorem findHtmlMatch_complete :
    ∀ {a b r : Str}, tryHtmlAt b = some r →
      (∀ i < a.length, tryHtmlAt ((a ++ b).drop i) = none) →
      findHtmlMatch (a ++ b) = some r
  | [], b, r, hb, _ => by
    rcases b with _ | ⟨c, cs⟩
    · rw [tryHtmlAt_nil] at hb
      simp at hb
    · rw [List.nil_append, findHtmlMatch, hb]
  | c :: a', b, r, hb, hfirst => by
    have h0 : tryHtmlAt (c :: (a' ++ b)) = none := by
      have := hfirst 0 (Nat.succ_pos _)
      rwa [List.cons_append, List.drop_zero] at this
    rw [List.cons_append, findHtmlMatch, h0]
    exact findHtmlMatch_complete hb fun i hi => by
      have := hfirst (i + 1) (Nat.succ_lt_succ hi)
      rwa [List.cons_append, List.drop_succ_cons] at this

theorem findHtmlMatch_sound :
    ∀ {s r : Str}, findHtmlMatch s = some r →
      ∃ a b, s = a ++ b ∧ tryHtmlAt b = some r ∧ ∀ i < a.length, tryHtmlAt (s.drop i) = none
  | [], r, h => by simp [findHtmlMatch] at h
  | c :: cs, r, h => by
    rw [findHtmlMatch] at h
    rcases ht : tryHtmlAt (c :: cs) with _ | m
    · rw [ht] at h
      obtain ⟨a', b', hdec, htry, hfirst⟩ := findHtmlMatch_sound h
      refine ⟨c :: a', b', by rw [hdec, List.cons_append], htry, ?_⟩
      intro i hi
      cases i with
      | zero => exact ht
      | succ j =>
        rw [List.drop_succ_cons]
        exact hfirst j (Nat.lt_of_succ_lt_succ hi)
    · rw [ht] at h
      simp only [Option.some_inj] at h
      exact ⟨[], c :: cs, rfl, by rw [ht, h], by simp⟩

theorem tryFenceAt_none_iff {t : Str} : tryFenceAt t = none ↔ fenceOk t = false := by
  rw [tryFenceAt, fenceOk]
  by_cases hf : startsWithBy chEq fencePat t = true
  · simp only [hf, if_true, Bool.true_and]
    rcases splitFirstBy chEq fencePat (fenceSkip (t.drop 3)) with _ | p
    · simp
    · simp
  · rw [Bool.not_eq_true] at hf
    simp [hf]

theorem tryFenceAt_some_of {t interior suf : Str} (hf : startsWithBy chEq fencePat t = true)
    (hs : splitFirstBy chEq fencePat (fenceSkip (t.drop 3)) = some (interior, suf)) :
    tryFenceAt t = some interior := by
  rw [tryFenceAt]
  simp [hf, hs]

theorem tryFenceAt_sound {t interior : Str} (h : tryFenceAt t = some interior) :
    ∃ suf, startsWithBy chEq fencePat t = true ∧
      splitFirstBy chEq fencePat (fenceSkip (t.drop 3)) = some (interior, suf) := by
  rw [tryFenceAt] at h
  by_cases hf : startsWithBy chEq fencePat t = true
  · rw [if_pos hf] at h
    rcases hs : splitFirstBy chEq fencePat (fenceSkip (t.drop 3)) with _ | ⟨i', suf⟩
    · rw [hs] at h; simp at h
    · rw [hs] at h
      simp only [Option.map_some', Option.some_inj] at h
      subst h
      exact ⟨suf, hf, rfl⟩
  · rw [Bool.not_eq_true] at hf
    rw [hf] at h
    simp at h

theorem tryFenceAt_nil : tryFenceAt ([] : Str) = none := by decide

theorem findFence_none_iff :
    ∀ {s : Str}, findFence s = none ↔ ∀ i, tryFenceAt (s.drop i) = none
  | [] => by
    constructor
    · intro _ i
      rw [List.drop_nil]
      exact tryFenceAt_nil
    · intro _
      rfl
  | c :: cs => by
    constructor
    · intro h i
      rw [findFence] at h
      rcases ht : tryFenceAt (c :: cs) with _ | m
      · rw [ht] at h
        cases i with
        | zero => exact ht
        | succ j =>
          rw [List.drop_succ_cons]
          exact (findFence_none_iff).mp h j
      · rw [ht] at h
        simp at h
    · intro h
      rw [findFence]
      have h0 := h 0
      rw [List.drop_zero] at h0
      rw [h0]
      exact (findFence_none_iff).mpr fun i => by
        have := h (i + 1)
        rwa [List.drop_succ_cons] at this

theorem findFence_complete :
    ∀ {a b r : Str}, tryFenceAt b = some r →
      (∀ i < a.length, tryFenceAt ((a ++ b).drop i) = none) →
      findFence (a ++ b) = some r
  | [], b, r, hb, _ => by
    rcases b with _ | ⟨c, cs⟩
    · rw [tryFenceAt_nil] at hb
      simp at hb
    · rw [List.nil_append, findFence, hb]
  | c :: a', b, r, hb, hfirst => by
    have h0 : tryFenceAt (c :: (a' ++ b)) = none := by
      have := hfirst 0 (Nat.succ_pos _)
      rwa [List.cons_append, List.drop_zero] at this
    rw [List.cons_append, findFence, h0]
    exact findFence_complete hb fun i hi => by
      have := hfirst (i + 1) (Nat.succ_lt_succ hi)
      rwa [List.cons_append, List.drop_succ_cons] at this

theorem findFence_sound :
    ∀ {s r : Str}, findFence s = some r →
      ∃ a b, s = a ++ b ∧ tryFenceAt b = some r ∧ ∀ i < a.length, tryFenceAt (s.drop i) = none
  | [], r, h => by simp [findFence] at h
  | c :: cs, r, h => by
    rw [findFence] at h
    rcases ht : tryFenceAt (c :: cs) with _ | m
    · rw [ht] at h
      obtain ⟨a', b', hdec, htry, hfirst⟩ := findFence_sound h
      refine ⟨c :: a', b', by rw [hdec, List.cons_append], htry, ?_⟩
      intro i hi
      cases i with
      | zero => exact ht
      | succ j =>
        rw [List.drop_succ_cons]
        exact hfirst j (Nat.lt_of_succ_lt_succ hi)
    · rw [ht] at h
      simp only [Option.some_inj] at h
      exact ⟨[], c :: cs, rfl, by rw [ht, h], by simp⟩

theorem skipSpaces_append_all {w : Str} (hw : w.all isSpaceJS = true) :
    ∀ t : Str, skipSpaces (w ++ t) = skipSpaces t := by
  induction w with
  | nil => intro t; rfl
  | cons c cs ih =>
    intro t
    simp only [List.all_cons, Bool.and_eq_true] at hw
    rw [List.cons_append, skipSpaces_cons_space hw.1]
    exact ih hw.2 t

theorem trimJS_nil_of_all_space {m : Str} (hm : m.dropWhile isSpaceJS = []) :
    trimJS m = [] := by
  rw [trimJS, hm]
  rfl

theorem trimJS_dropWhile (m : Str) : trimJS (m.dropWhile isSpaceJS) = trimJS m := by
  rw [trimJS, trimJS, List.dropWhile_idempotent]

theorem append_ne_nil_of_right {a b : Str} (hb : b ≠ []) : a ++ b ≠ [] := by
  intro hc
  rcases List.append_eq_nil.mp hc with ⟨-, h2⟩
  exact hb h2

/-- C2: the three-tier extraction contract.  Empty input yields the empty
string; a case-insensitive `<!DOCTYPE html>`/`<html` marker followed by
`</html>` yields exactly the leftmost such span through the first
subsequent `</html>`, casing preserved; otherwise a triple-backtick fence
(with optional `html` tag) yields the trimmed fence interior; otherwise the
trimmed input is returned. -/
theorem c2_extract_three_tier :
    (extractHtmlFromText [] = []) ∧
    (∀ s pre mk g cl rest : Str,
      s = pre ++ (mk ++ (g ++ (cl ++ rest))) →
      ((startsWithBy chEqCI doctypePat mk = true ∧ mk.length = 15) ∨
        (startsWithBy chEqCI htmlOpenPat mk = true ∧ mk.length = 5)) →
      startsWithBy chEqCI htmlClosePat cl = true → cl.length = 7 →
      (∀ j < g.length, occAt chEqCI htmlClosePat (g ++ (cl ++ rest)) j = false) →
      (∀ i < pre.length, markerWithClose (s.drop i) = false) →
      extractHtmlFromText s = mk ++ (g ++ cl)) ∧
    (∀ s pre h w m rest : Str,
      (∀ i, markerWithClose (s.drop i) = false) →
      s = pre ++ (fencePat ++ (h ++ (w ++ (m ++ (fencePat ++ rest))))) →
      (h = ("html").data ∨
        (h = [] ∧ startsWithBy chEq htmlTagPat (w ++ (m ++ (fencePat ++ rest))) = false)) →
      w.all isSpaceJS = true →
      (∀ j < m.length, occAt chEq fencePat (m ++ (fencePat ++ rest)) j = false) →
      (∀ i < pre.length, fenceOk (s.drop i) = false) →
      extractHtmlFromText s = trimJS m) ∧
    (∀ s : Str, (∀ i, markerWithClose (s.drop i) = false) →
      (∀ i, fenceOk (s.drop i) = false) →
      extractHtmlFromText s = trimJS s) := by
  refine ⟨rfl, ?_, ?_, ?_⟩
  · intro s pre mk g cl rest hdec hmk hclsw hcl7 hg hpre
    subst hdec
    have hclose_split : splitFirstBy chEqCI htmlClosePat (g ++ (cl ++ rest))
        = some (g, cl ++ rest) :=
      splitFirstBy_complete (startsWithBy_append hclsw rest) hg
    have hne : (pre ++ (mk ++ (g ++ (cl ++ rest)))).isEmpty = false := by
      have hmkne : mk ≠ [] := by
        rcases hmk with ⟨-, hl⟩ | ⟨-, hl⟩ <;>
          · intro hc
            rw [hc] at hl
            simp at hl
      rcases hv : pre ++ (mk ++ (g ++ (cl ++ rest))) with _ | ⟨c, cs⟩
      · exact absurd hv (by
          intro hc
          rcases List.append_eq_nil.mp hc with ⟨-, h2⟩
          rcases List.append_eq_nil.mp h2 with ⟨h3, -⟩
          exact hmkne h3)
      · rfl
    have hfm : findHtmlMatch (pre ++ (mk ++ (g ++ (cl ++ rest))))
        = some (mk ++ g ++ cl) := by
      have hfirst : ∀ i < pre.length,
          tryHtmlAt ((pre ++ (mk ++ (g ++ (cl ++ rest)))).drop i) = none := fun i hi =>
        tryHtmlAt_none_iff.mpr (hpre i hi)
      rcases hmk with ⟨hsw, hlen⟩ | ⟨hsw, hlen⟩
      · have htry : tryHtmlAt (mk ++ (g ++ (cl ++ rest))) = some (mk ++ g ++ cl) := by
          have h1 := tryHtmlAt_doctype (t := mk ++ (g ++ (cl ++ rest)))
            (startsWithBy_append hsw _)
            (by rw [List.drop_left' hlen]; exact hclose_split)
          rw [List.take_left' hlen, List.take_left' hcl7] at h1
          exact h1
        exact findHtmlMatch_complete htry hfirst
      · have hdb : startsWithBy chEqCI doctypePat (mk ++ (g ++ (cl ++ rest))) = false := by
          by_contra hc
          rw [Bool.not_eq_false] at hc
          exact doctype_html_incompat hc (startsWithBy_append hsw _)
        have htry : tryHtmlAt (mk ++ (g ++ (cl ++ rest))) = some (mk ++ g ++ cl) := by
          have h1 := tryHtmlAt_html (t := mk ++ (g ++ (cl ++ rest))) hdb
            (startsWithBy_append hsw _)
            (by rw [List.drop_left' hlen]; exact hclose_split)
          rw [List.take_left' hlen, List.take_left' hcl7] at h1
          exact h1
        exact findHtmlMatch_complete htry hfirst
    rw [extractHtmlFromText, if_neg (by rw [hne]; exact Bool.false_ne_true), hfm]
    dsimp only
    rw [List.append_assoc]
  · intro s pre h w m rest hnomarker hdec hh hw hm hpre
    subst hdec
    have hne : (pre ++ (fencePat ++ (h ++ (w ++ (m ++ (fencePat ++ rest)))))).isEmpty
        = false := by
      rcases hv : pre ++ (fencePat ++ (h ++ (w ++ (m ++ (fencePat ++ rest)))))
        with _ | ⟨c, cs⟩
      · exact absurd hv (by
          intro hc
          rcases List.append_eq_nil.mp hc with ⟨-, h2⟩
          rcases List.append_eq_nil.mp h2 with ⟨h3, -⟩
          exact absurd h3 (by decide))
      · rfl
    have hfm : findHtmlMatch (pre ++ (fencePat ++ (h ++ (w ++ (m ++ (fencePat ++ rest))))))
        = none :=
      findHtmlMatch_none_iff.mpr fun i => tryHtmlAt_none_iff.mpr (hnomarker i)
    have hskipval : fenceSkip ((fencePat ++ (h ++ (w ++ (m ++ (fencePat ++ rest))))).drop 3)
        = (m ++ (fencePat ++ rest)).dropWhile isSpaceJS := by
      rw [List.drop_left' (by decide : fencePat.length = 3)]
      rcases hh with rfl | ⟨rfl, hno⟩
      · rw [fenceSkip, if_pos (startsWithBy_append (by decide) _),
          List.drop_left' (by decide : (("html").data).length = 4),
          skipSpaces_append_all hw]
        rfl
      · rw [List.nil_append, fenceSkip, if_neg (by rw [hno]; exact Bool.false_ne_true),
          skipSpaces_append_all hw]
        rfl
    rcases hmdrop : (m.dropWhile isSpaceJS) with _ | ⟨mc, mcs⟩
    · have hfence_head : (m ++ (fencePat ++ rest)).dropWhile isSpaceJS
          = fencePat ++ rest := by
        rw [List.dropWhile_append, hmdrop]
        simp only [List.isEmpty_nil, if_true]
        rw [show fencePat ++ rest = '\x60' :: ((("\x60\x60").data) ++ rest) from by
          rw [show fencePat = '\x60' :: ("\x60\x60").data from by decide, List.cons_append]]
        exact skipSpaces_cons_not (by decide)
      have hsplit : splitFirstBy chEq fencePat ((m ++ (fencePat ++ rest)).dropWhile isSpaceJS)
          = some ([], fencePat ++ rest) := by
        rw [hfence_head]
        have := @splitFirstBy_complete chEq fencePat []
          (fencePat ++ rest) (startsWithBy_append (by decide) _) (by simp)
        rwa [List.nil_append] at this
      have htry : tryFenceAt (fencePat ++ (h ++ (w ++ (m ++ (fencePat ++ rest)))))
          = some [] :=
        tryFenceAt_some_of (startsWithBy_append (by decide) _) (by rw [hskipval]; exact hsplit)
      have hff : findFence (pre ++ (fencePat ++ (h ++ (w ++ (m ++ (fencePat ++ rest))))))
          = some [] :=
        findFence_complete htry fun i hi => tryFenceAt_none_iff.mpr (hpre i hi)
      rw [extractHtmlFromText, if_neg (by rw [hne]; exact Bool.false_ne_true), hfm, hff]
      dsimp only
      rw [trimJS_nil_of_all_space hmdrop]
      rfl
    · have hm' := hmdrop ▸ (List.takeWhile_append_dropWhile (p := isSpaceJS) (l := m))
      have hfence_head : (m ++ (fencePat ++ rest)).dropWhile isSpaceJS
          = (mc :: mcs) ++ (fencePat ++ rest) := by
        rw [List.dropWhile_append, hmdrop]
        simp
      have hfirst : ∀ j < (mc :: mcs).length,
          occAt chEq fencePat ((mc :: mcs) ++ (fencePat ++ rest)) j = false := by
        intro j hj
        have htw : m.takeWhile isSpaceJS ++ ((mc :: mcs) ++ (fencePat ++ rest))
            = m ++ (fencePat ++ rest) := by
          rw [← List.append_assoc, hm']
        have := hm ((m.takeWhile isSpaceJS).length + j) (by
          have hlm : (m.takeWhile isSpaceJS).length + (mc :: mcs).length = m.length := by
            rw [← List.length_append, hm']
          omega)
        rw [← htw, occAt_append_add] at this
        exact this
      have hsplit : splitFirstBy chEq fencePat ((m ++ (fencePat ++ rest)).dropWhile isSpaceJS)
          = some (mc :: mcs, fencePat ++ rest) := by
        rw [hfence_head]
        exact splitFirstBy_complete (startsWithBy_append (by decide) _) hfirst
      have htry : tryFenceAt (fencePat ++ (h ++ (w ++ (m ++ (fencePat ++ rest)))))
          = some (mc :: mcs) :=
        tryFenceAt_some_of (startsWithBy_append (by decide) _) (by rw [hskipval]; exact hsplit)
      have hff : findFence (pre ++ (fencePat ++ (h ++ (w ++ (m ++ (fencePat ++ rest))))))
          = some (mc :: mcs) :=
        findFence_complete htry fun i hi => tryFenceAt_none_iff.mpr (hpre i hi)
      rw [extractHtmlFromText, if_neg (by rw [hne]; exact Bool.false_ne_true), hfm, hff]
      dsimp only
      rw [← hmdrop, trimJS_dropWhile]
  · intro s hnomarker hnofence
    rcases hs : s with _ | ⟨c, cs⟩
    · rfl
    · rw [← hs]
      have hne : s.isEmpty = false := by rw [hs]; rfl
      rw [extractHtmlFromText, if_neg (by rw [hne]; exact Bool.false_ne_true),
        findHtmlMatch_none_iff.mpr fun i => tryHtmlAt_none_iff.mpr (hnomarker i),
        findFence_none_iff.mpr fun i => tryFenceAt_none_iff.mpr (hnofence i)]

/-- Witness for C2: on the input x&lt;html a&lt;/html&gt;y the marker tier fires
and extraction returns the span from the marker through the first close tag. -/
theorem c2_extract_three_tier_witness :
    extractHtmlFromText ("x<html a</html>y").data = ("<html a</html>").data := by
  have h := c2_extract_three_tier.2.1 (("x<html a</html>y").data) (("x").data)
    (("<html").data) ((" a").data) (("</html>").data) (("y").data)
    (by decide) (by decide) (by decide) (by decide) (by decide) (by decide)
  exact h.trans (by decide)

/-! ## Idempotence of the extraction stage (C9) -/

theorem splitFirst_isSome_mono {eqv : Char → Char → Bool} {pat : Str} :
    ∀ {a : Str} (v : Str), (splitFirstBy eqv pat a).isSome = true →
      (splitFirstBy eqv pat (a ++ v)).isSome = true
  | [], v, h => by
    rcases pat with _ | ⟨p, ps⟩
    · rcases v with _ | ⟨c, cs⟩
      · exact h
      · rw [List.nil_append, splitFirstBy,
          if_pos (show startsWithBy eqv [] (c :: cs) = true from rfl)]
        rfl
    · rw [splitFirstBy] at h
      simp [startsWithBy] at h
  | c :: cs, v, h => by
    rw [List.cons_append, splitFirstBy]
    by_cases hw2 : startsWithBy eqv pat (c :: (cs ++ v)) = true
    · rw [if_pos hw2]
      rfl
    · rw [if_neg hw2]
      have hw : ¬ startsWithBy eqv pat (c :: cs) = true := by
        intro hww
        exact hw2 (by rw [← List.cons_append]; exact startsWithBy_append hww v)
      rw [splitFirstBy, if_neg hw] at h
      rw [optIsSome_map] at h
      rw [optIsSome_map]
      exact splitFirst_isSome_mono v h

theorem mwc_mono {u : Str} (h : markerWithClose u = true) (v : Str) :
    markerWithClose (u ++ v) = true := by
  rw [markerWithClose, Bool.or_eq_true, Bool.and_eq_true, Bool.and_eq_true] at h
  rw [markerWithClose, Bool.or_eq_true, Bool.and_eq_true, Bool.and_eq_true]
  rcases h with ⟨h1, h2⟩ | ⟨h1, h2⟩
  · refine Or.inl ⟨startsWithBy_append h1 v, ?_⟩
    have h15 : 15 ≤ u.length := by
      have := startsWithBy_length h1
      rw [show doctypePat.length = 15 from by decide] at this
      exact this
    rw [List.drop_append_of_le_length h15]
    exact splitFirst_isSome_mono v h2
  · refine Or.inr ⟨startsWithBy_append h1 v, ?_⟩
    have h5 : 5 ≤ u.length := by
      have := startsWithBy_length h1
      rw [show htmlOpenPat.length = 5 from by decide] at this
      exact this
    rw [List.drop_append_of_le_length h5]
    exact splitFirst_isSome_mono v h2

theorem skip_split_mono {a : Str}
    (h : (splitFirstBy chEq fencePat (skipSpaces a)).isSome = true) (v : Str) :
    (splitFirstBy chEq fencePat (skipSpaces (a ++ v))).isSome = true := by
  rw [skipSpaces] at h
  rw [skipSpaces, List.dropWhile_append]
  rcases hd : a.dropWhile isSpaceJS with _ | ⟨c, cs⟩
  · rw [hd] at h
    exact absurd h (by decide)
  · rw [hd] at h
    rw [if_neg (by rw [List.isEmpty_cons]; exact Bool.false_ne_true)]
    exact splitFirst_isSome_mono v h

theorem startsWithBy_prefix_eq :
    ∀ {pat x y : Str}, startsWithBy chEq pat (x ++ y) = true → x.length ≤ pat.length →
      x = pat.take x.length
  | _, [], _, _, _ => rfl
  | [], _ :: _, _, _, hx => by simp at hx
  | p :: ps, c :: cs, y, h, hx => by
    rw [List.cons_append] at h
    have h2 : (chEq p c && startsWithBy chEq ps (cs ++ y)) = true := h
    rw [Bool.and_eq_true] at h2
    have hpc : p = c := by
      have h3 : (p == c) = true := h2.1
      exact eq_of_beq h3
    rw [List.length_cons, List.take_succ_cons, hpc]
    exact congrArg (fun t => c :: t)
      (startsWithBy_prefix_eq h2.2 (Nat.le_of_succ_le_succ (by simpa using hx)))

theorem fenceOk_mono {u : Str} (h : fenceOk u = true) (v : Str) : fenceOk (u ++ v) = true := by
  rw [fenceOk, Bool.and_eq_true] at h
  obtain ⟨hf, hsome⟩ := h
  have hu3 : 3 ≤ u.length := by
    have := startsWithBy_length hf
    rw [show fencePat.length = 3 from by decide] at this
    exact this
  rw [fenceOk, Bool.and_eq_true]
  refine ⟨startsWithBy_append hf v, ?_⟩
  rw [List.drop_append_of_le_length hu3]
  by_cases hh : startsWithBy chEq htmlTagPat (u.drop 3) = true
  · rw [fenceSkip, if_pos hh] at hsome
    have hw4 : 4 ≤ (u.drop 3).length := by
      have := startsWithBy_length hh
      rw [show htmlTagPat.length = 4 from by decide] at this
      exact this
    rw [fenceSkip, if_pos (startsWithBy_append hh v), List.drop_append_of_le_length hw4]
    exact skip_split_mono hsome v
  · by_cases hh2 : startsWithBy chEq htmlTagPat (u.drop 3 ++ v) = true
    · exfalso
      have hwlt : (u.drop 3).length < 4 := by
        by_contra hge
        push_neg at hge
        rw [startsWithBy_append_left
          (by rw [show htmlTagPat.length = 4 from by decide]; exact hge)] at hh2
        exact hh hh2
      have hwpre := startsWithBy_prefix_eq hh2
        (by rw [show htmlTagPat.length = 4 from by decide]; omega)
      rw [fenceSkip, if_neg hh] at hsome
      have h4 : (u.drop 3).length = 0 ∨ (u.drop 3).length = 1 ∨ (u.drop 3).length = 2 ∨
          (u.drop 3).length = 3 := by omega
      rcases h4 with hl | hl | hl | hl <;>
        · rw [hl] at hwpre
          rw [hwpre] at hsome
          exact absurd hsome (by decide)
    · rw [fenceSkip, if_neg hh] at hsome
      rw [fenceSkip, if_neg hh2]
      exact skip_split_mono hsome v

theorem pred_free_of_infix {p : Str → Bool}
    (hmono : ∀ u, p u = true → ∀ v, p (u ++ v) = true)
    (hnil : p [] = false)
    {P T S s : Str} (hdec : s = P ++ (T ++ S))
    (hs : ∀ i, p (s.drop i) = false) :
    ∀ j, p (T.drop j) = false := by
  intro j
  by_cases hj : j ≤ T.length
  · by_contra hc
    rw [Bool.not_eq_false] at hc
    have h2 := hmono _ hc S
    have h3 : s.drop (P.length + j) = T.drop j ++ S := by
      rw [hdec, List.drop_append, List.drop_append_of_le_length hj]
    have h4 := hs (P.length + j)
    rw [h3, h2] at h4
    simp at h4
  · push_neg at hj
    rw [List.drop_eq_nil_of_le (Nat.le_of_lt hj)]
    exact hnil

theorem occAt_take_extend {eqv : Char → Char → Bool} {pat g suf : Str} {k j : Nat}
    (hj : j ≤ g.length)
    (h : occAt eqv pat (g ++ suf.take k) j = true) : occAt eqv pat (g ++ suf) j = true := by
  rw [occAt, List.drop_append_of_le_length hj] at h
  rw [occAt, List.drop_append_of_le_length hj]
  have h2 := startsWithBy_append h (suf.drop k)
  rwa [List.append_assoc, List.take_append_drop] at h2

theorem trimJS_parts (s : Str) :
    s = s.takeWhile isSpaceJS ++
      (trimJS s ++ ((s.dropWhile isSpaceJS).reverse.takeWhile isSpaceJS).reverse) := by
  rw [trimJS, ← List.reverse_append, List.takeWhile_append_dropWhile, List.reverse_reverse,
    List.takeWhile_append_dropWhile]

theorem dropWhile_rdrop_comm (p : Char → Bool) :
    ∀ v : Str, ((v.reverse.dropWhile p).reverse).dropWhile p
      = ((v.dropWhile p).reverse.dropWhile p).reverse
  | [] => rfl
  | c :: v' => by
    rw [List.reverse_cons, List.dropWhile_append]
    rcases hd : v'.reverse.dropWhile p with _ | ⟨d, ds⟩
    · rw [if_pos (by rw [List.isEmpty_nil])]
      have hv'nil : v'.dropWhile p = [] := by
        rw [List.dropWhile_eq_nil_iff]
        intro x hx
        exact (List.dropWhile_eq_nil_iff.mp hd) x (List.mem_reverse.mpr hx)
      by_cases hc : p c = true
      · simp [List.dropWhile_cons, hc, hv'nil]
      · rw [Bool.not_eq_true] at hc
        simp [List.dropWhile_cons, hc, hv'nil, List.dropWhile_append, hd,
          List.reverse_cons]
    · rw [if_neg (by rw [List.isEmpty_cons]; exact Bool.false_ne_true)]
      by_cases hc : p c = true
      · have lhs_eq : ((d :: ds) ++ [c]).reverse.dropWhile p
            = ((d :: ds).reverse).dropWhile p := by
          rw [List.reverse_append, List.reverse_singleton, List.singleton_append,
            List.dropWhile_cons, if_pos hc]
        rw [lhs_eq, ← hd]
        have rhs_eq : (c :: v').dropWhile p = v'.dropWhile p := by
          rw [List.dropWhile_cons, if_pos hc]
        rw [rhs_eq]
        exact dropWhile_rdrop_comm p v'
      · rw [Bool.not_eq_true] at hc
        have lhs_eq : ((d :: ds) ++ [c]).reverse.dropWhile p = c :: (d :: ds).reverse := by
          rw [List.reverse_append, List.reverse_singleton, List.singleton_append,
            List.dropWhile_cons, hc, if_neg Bool.false_ne_true]
        have rhs_eq : (c :: v').dropWhile p = c :: v' := by
          rw [List.dropWhile_cons, hc, if_neg Bool.false_ne_true]
        have rhs_eq2 : (((c :: v').dropWhile p).reverse.dropWhile p).reverse
            = c :: (d :: ds).reverse := by
          rw [rhs_eq, List.reverse_cons, List.dropWhile_append, hd,
            if_neg (by rw [List.isEmpty_cons]; exact Bool.false_ne_true),
            List.reverse_append, List.reverse_singleton, List.singleton_append]
        rw [lhs_eq, rhs_eq2]

theorem trimJS_idempotent (s : Str) : trimJS (trimJS s) = trimJS s := by
  have h1 : (trimJS s).dropWhile isSpaceJS = trimJS s := by
    rw [trimJS, ← dropWhile_rdrop_comm, List.dropWhile_idempotent]
  rw [trimJS, h1, trimJS, List.reverse_reverse, List.dropWhile_idempotent]

theorem extract_of_free {T : Str} (hm : ∀ i, markerWithClose (T.drop i) = false)
    (hf : ∀ i, fenceOk (T.drop i) = false) :
    extractHtmlFromText T = trimJS T := by
  rcases hT : T with _ | ⟨c, cs⟩
  · rfl
  · rw [← hT]
    have hne : ¬ (T.isEmpty = true) := by rw [hT]; simp
    rw [extractHtmlFromText, if_neg hne,
      findHtmlMatch_none_iff.mpr fun i => tryHtmlAt_none_iff.mpr (hm i),
      findFence_none_iff.mpr fun i => tryFenceAt_none_iff.mpr (hf i)]

theorem fenceOk_free_of_interior {interior suf T q1 q2 : Str}
    (hint : interior = q1 ++ (T ++ q2))
    (hfirst : ∀ i < interior.length, occAt chEq fencePat (interior ++ suf) i = false) :
    ∀ j, fenceOk (T.drop j) = false := by
  intro j
  by_cases hj : j < T.length
  · rw [fenceOk]
    have hsw : startsWithBy chEq fencePat (T.drop j) = false := by
      by_contra hc
      rw [Bool.not_eq_false] at hc
      have h1 : startsWithBy chEq fencePat (T.drop j ++ (q2 ++ suf)) = true :=
        startsWithBy_append hc _
      have h2 : (interior ++ suf).drop (q1.length + j) = T.drop j ++ (q2 ++ suf) := by
        rw [hint, List.append_assoc, List.append_assoc, List.drop_append,
          List.drop_append_of_le_length (Nat.le_of_lt hj)]
      have hlen : interior.length = q1.length + (T.length + q2.length) := by
        rw [hint, List.length_append, List.length_append]
      have h3 := hfirst (q1.length + j) (by omega)
      rw [occAt, h2, h1] at h3
      simp at h3
    rw [hsw, Bool.false_and]
  · push_neg at hj
    rw [List.drop_eq_nil_of_le hj]
    decide

theorem extract_fixes_match {s m : Str} (h : findHtmlMatch s = some m) :
    extractHtmlFromText m = m := by
  obtain ⟨a, b, hdec, htry, -⟩ := findHtmlMatch_sound h
  rcases tryHtmlAt_sound htry with ⟨g, suf, hsw, hsplit, hr⟩ |
    ⟨g, suf, hdno, hsw, hsplit, hr⟩
  · obtain ⟨hdec2, hswsuf, hfirst⟩ := splitFirstBy_sound hsplit
    have h15b : 15 ≤ b.length := by
      have := startsWithBy_length hsw
      rw [show doctypePat.length = 15 from by decide] at this
      exact this
    have htake15 : (b.take 15).length = 15 := by
      rw [List.length_take]
      omega
    have hm' : m = b.take 15 ++ (g ++ suf.take 7) := by
      rw [hr, List.append_assoc]
    have h15 : startsWithBy chEqCI doctypePat (b.take 15) = true := by
      rw [show (15 : Nat) = doctypePat.length from by decide, startsWithBy_take]
      exact hsw
    have hmsw : startsWithBy chEqCI doctypePat m = true := by
      rw [hm']
      exact startsWithBy_append h15 _
    have hdrop : m.drop 15 = g ++ suf.take 7 := by
      rw [hm', List.drop_left' htake15]
    have hsw7 : startsWithBy chEqCI htmlClosePat (suf.take 7) = true := by
      rw [show (7 : Nat) = htmlClosePat.length from by decide, startsWithBy_take]
      exact hswsuf
    have hfirst7 : ∀ j < g.length, occAt chEqCI htmlClosePat (g ++ suf.take 7) j = false := by
      intro j hj
      by_contra hc
      rw [Bool.not_eq_false] at hc
      have h2 := occAt_take_extend (Nat.le_of_lt hj) hc
      have h3 := hfirst j hj
      rw [hdec2, h2] at h3
      simp at h3
    have hsplit2 : splitFirstBy chEqCI htmlClosePat (m.drop 15) = some (g, suf.take 7) := by
      rw [hdrop]
      exact splitFirstBy_complete hsw7 hfirst7
    have htry0 : tryHtmlAt m = some m := by
      have h1 := tryHtmlAt_doctype hmsw hsplit2
      rw [List.take_take, Nat.min_self] at h1
      have hmtake : m.take 15 = b.take 15 := by
        rw [hm', List.take_left' htake15]
      rw [hmtake, List.append_assoc, ← hm'] at h1
      exact h1
    have hlen15 : 15 ≤ m.length := by
      rw [hm', List.length_append, htake15]
      omega
    rcases hm2 : m with _ | ⟨c, cs⟩
    · rw [hm2] at hlen15
      simp at hlen15
    · have hne : ¬ (m.isEmpty = true) := by rw [hm2]; simp
      have hfind : findHtmlMatch m = some m := by
        rw [hm2, findHtmlMatch, ← hm2, htry0]
      rw [← hm2, extractHtmlFromText, if_neg hne, hfind]
  · obtain ⟨hdec2, hswsuf, hfirst⟩ := splitFirstBy_sound hsplit
    have h5b : 5 ≤ b.length := by
      have := startsWithBy_length hsw
      rw [show htmlOpenPat.length = 5 from by decide] at this
      exact this
    have htake5 : (b.take 5).length = 5 := by
      rw [List.length_take]
      omega
    have hm' : m = b.take 5 ++ (g ++ suf.take 7) := by
      rw [hr, List.append_assoc]
    have h5 : startsWithBy chEqCI htmlOpenPat (b.take 5) = true := by
      rw [show (5 : Nat) = htmlOpenPat.length from by decide, startsWithBy_take]
      exact hsw
    have hmsw : startsWithBy chEqCI htmlOpenPat m = true := by
      rw [hm']
      exact startsWithBy_append h5 _
    have hdno_m : startsWithBy chEqCI doctypePat m = false := by
      by_contra hc2
      rw [Bool.not_eq_false] at hc2
      exact doctype_html_incompat hc2 hmsw
    have hdrop : m.drop 5 = g ++ suf.take 7 := by
      rw [hm', List.drop_left' htake5]
    have hsw7 : startsWithBy chEqCI htmlClosePat (suf.take 7) = true := by
      rw [show (7 : Nat) = htmlClosePat.length from by decide, startsWithBy_take]
      exact hswsuf
    have hfirst7 : ∀ j < g.length, occAt chEqCI htmlClosePat (g ++ suf.take 7) j = false := by
      intro j hj
      by_contra hc
      rw [Bool.not_eq_false] at hc
      have h2 := occAt_take_extend (Nat.le_of_lt hj) hc
      have h3 := hfirst j hj
      rw [hdec2, h2] at h3
      simp at h3
    have hsplit2 : splitFirstBy chEqCI htmlClosePat (m.drop 5) = some (g, suf.take 7) := by
      rw [hdrop]
      exact splitFirstBy_complete hsw7 hfirst7
    have htry0 : tryHtmlAt m = some m := by
      have h1 := tryHtmlAt_html hdno_m hmsw hsplit2
      rw [List.take_take, Nat.min_self] at h1
      have hmtake : m.take 5 = b.take 5 := by
        rw [hm', List.take_left' htake5]
      rw [hmtake, List.append_assoc, ← hm'] at h1
      exact h1
    have hlen5 : 5 ≤ m.length := by
      rw [hm', List.length_append, htake5]
      omega
    rcases hm2 : m with _ | ⟨c, cs⟩
    · rw [hm2] at hlen5
      simp at hlen5
    · have hne : ¬ (m.isEmpty = true) := by rw [hm2]; simp
      have hfind : findHtmlMatch m = some m := by
        rw [hm2, findHtmlMatch, ← hm2, htry0]
      rw [← hm2, extractHtmlFromText, if_neg hne, hfind]

/-- C9: the extraction stage is idempotent.  Feeding the output of
`extractHtmlFromText` back into `extractHtmlFromText` returns it unchanged:
a full-document match re-matches itself, a trimmed fence interior contains
neither a document marker with a close tag nor a fence, and the trimmed
fallback is already trimmed. -/
theorem c9_extract_idempotent (s : Str) :
    extractHtmlFromText (extractHtmlFromText s) = extractHtmlFromText s := by
  by_cases hemp : s.isEmpty = true
  · have hE : extractHtmlFromText s = [] := by
      rw [extractHtmlFromText, if_pos hemp]
    rw [hE]
    rfl
  · rcases hfm : findHtmlMatch s with _ | m
    · rcases hff : findFence s with _ | interior
      · have hE : extractHtmlFromText s = trimJS s := by
          rw [extractHtmlFromText, if_neg hemp, hfm, hff]
        rw [hE]
        have hsmark : ∀ i, markerWithClose (s.drop i) = false :=
          fun i => tryHtmlAt_none_iff.mp (findHtmlMatch_none_iff.mp hfm i)
        have hsfence : ∀ i, fenceOk (s.drop i) = false :=
          fun i => tryFenceAt_none_iff.mp (findFence_none_iff.mp hff i)
        have h1 := pred_free_of_infix (p := markerWithClose)
          (fun u hu v => mwc_mono hu v) (by decide) (trimJS_parts s) hsmark
        have h2 := pred_free_of_infix (p := fenceOk)
          (fun u hu v => fenceOk_mono hu v) (by decide) (trimJS_parts s) hsfence
        rw [extract_of_free h1 h2, trimJS_idempotent]
      · have hE : extractHtmlFromText s = trimJS interior := by
          rw [extractHtmlFromText, if_neg hemp, hfm, hff]
        rw [hE]
        obtain ⟨a, b, hdec, htry, -⟩ := findFence_sound hff
        obtain ⟨suf, hfb, hsplit⟩ := tryFenceAt_sound htry
        obtain ⟨hskipdec, hswsuf, hfirstI⟩ := splitFirstBy_sound hsplit
        have hb3 : ∃ pre2 : Str, b.drop 3 = pre2 ++ (interior ++ suf) := by
          rw [fenceSkip] at hskipdec
          by_cases hh : startsWithBy chEq htmlTagPat (b.drop 3) = true
          · rw [if_pos hh, skipSpaces] at hskipdec
            refine ⟨(b.drop 3).take 4 ++ ((b.drop 3).drop 4).takeWhile isSpaceJS, ?_⟩
            rw [List.append_assoc, ← hskipdec, List.takeWhile_append_dropWhile,
              List.take_append_drop]
          · rw [if_neg hh, skipSpaces] at hskipdec
            refine ⟨(b.drop 3).takeWhile isSpaceJS, ?_⟩
            rw [← hskipdec, List.takeWhile_append_dropWhile]
        obtain ⟨pre2, hb3⟩ := hb3
        have hsdec : s = (a ++ (b.take 3 ++ pre2)) ++ (interior ++ suf) := by
          rw [hdec, List.append_assoc, List.append_assoc, ← hb3, List.take_append_drop]
        have hTdec : s = ((a ++ (b.take 3 ++ pre2)) ++ interior.takeWhile isSpaceJS) ++
            (trimJS interior ++
              (((interior.dropWhile isSpaceJS).reverse.takeWhile isSpaceJS).reverse ++
                suf)) := by
          rw [hsdec]
          conv_lhs => rw [trimJS_parts interior]
          simp only [List.append_assoc]
        have hsmark : ∀ i, markerWithClose (s.drop i) = false :=
          fun i => tryHtmlAt_none_iff.mp (findHtmlMatch_none_iff.mp hfm i)
        have hmarkT : ∀ j, markerWithClose ((trimJS interior).drop j) = false :=
          pred_free_of_infix (p := markerWithClose)
            (fun u hu v => mwc_mono hu v) (by decide) hTdec hsmark
        have hfirstI' : ∀ i < interior.length,
            occAt chEq fencePat (interior ++ suf) i = false := by
          intro i hi
          have h2 := hfirstI i hi
          rwa [hskipdec] at h2
        have hfenceT : ∀ j, fenceOk ((trimJS interior).drop j) = false :=
          fenceOk_free_of_interior (trimJS_parts interior) hfirstI'
        rw [extract_of_free hmarkT hfenceT, trimJS_idempotent]
    · have hE : extractHtmlFromText s = m := by
        rw [extractHtmlFromText, if_neg hemp, hfm]
      rw [hE]
      exact extract_fixes_match hfm

/-! ## End-to-end pipeline on the documented example (C6) -/

/-- The example input of the end-to-end scenario: a chat answer wrapping an
HTML document in an `html` code fence, with a `camera.position.set(2,2,2)`
call in its script block. -/
def exC6 : Str :=
  ("Sure! Here\x27s your scene:\n\x60\x60\x60html\n<html><head></head><body><script>camera.position.set(2,2,2);</script></body></html>\n\x60\x60\x60").data

theorem exC6_mid :
    zoomCamera (hideBodyText (extractHtmlFromText exC6)) zoom08
      = ("<html><head>").data ++ cssToInject ++
        ("</head><body><script>camera.position.set(1.6, 1.6, 1.6);</script></body></html>").data := by
  decide

theorem exC6_split :
    splitLastBy chEqCI scriptClosePat
      (("<html><head>").data ++ cssToInject ++
        ("</head><body><script>camera.position.set(1.6, 1.6, 1.6);</script></body></html>").data)
      = some (("<html><head>").data ++ cssToInject ++
          ("</head><body><script>camera.position.set(1.6, 1.6, 1.6);").data,
        ("</script></body></html>").data) := by
  decide

/-- C6: the full pipeline on the documented example with factor 0.8.  The
result opens the head with the visibility CSS block, the camera call reads
exactly `camera.position.set(1.6, 1.6, 1.6)`, and the final script block has
the rescaled camera call followed by the injected controller template before
`<\x2fscript>`. -/
theorem c6_end_to_end_pipeline :
    pipeline exC6 zoom08 =
      ("<html><head>").data ++ cssToInject ++
        (("</head><body><script>camera.position.set(1.6, 1.6, 1.6);\n").data ++
          (gameScript ++ ("\n</script></body></html>").data)) := by
  rw [pipeline, exC6_mid, injectGameMode_of_some exC6_split]
  rw [show ("</head><body><script>camera.position.set(1.6, 1.6, 1.6);\n").data
      = ("</head><body><script>camera.position.set(1.6, 1.6, 1.6);").data ++ ['\n']
    from by decide]
  rw [show ("\n</script></body></html>").data
      = '\n' :: (scriptClosePat ++ (("</script></body></html>").data.drop 9))
    from by decide]
  simp only [List.append_assoc, List.cons_append, List.nil_append]

end Voxelize
